import Mathlib

/-!
# Verification of the swagger document synthesis engine

A shallow embedding of `src/unnamed/part_000` (the current `swaggerTransformer`),
together with its helper `classNameToReadable` (`src/unnamed/part_002`).

Modelling conventions:
* JavaScript values flowing through the transformer are modelled by the
  inductive `Json` below (no `undefined` constructor: an absent value is
  `Option.none` at the use site, mirroring how the source only ever meets
  `undefined` through absent fields).
* The external `joi` / `joi-to-swagger` capability is out of scope (the spec
  declares it an opaque `SchemaConverter`); a route's schema sections therefore
  carry the *result* of `j2s(withClassName(...))` — the swagger fragment and
  the optional `components.schemas` object — as input data.  For the body
  section the data observed by `isMultipart` (the `describe()` metas) is also
  carried.
* Response classes are instantiated by the caller-side `new Resp()`; a
  constructor is modelled as either `throws` or the produced instance.
* Exceptions raised by the JavaScript code (a throwing constructor, and
  `TypeError`s such as calling `.toUpperCase()` on `undefined`) are modelled
  with `Except String`.
-/

namespace Swagger

/-- JSON-like runtime values. Object fields are kept in insertion order,
mirroring JavaScript object key order for non-numeric keys. -/
inductive Json where
  | null
  | bool (b : Bool)
  | num (n : Int)
  | str (s : String)
  | arr (elems : List Json)
  | obj (fields : List (String × Json))

/-- JavaScript truthiness of a defined value. -/
def jsTruthy : Json → Bool
  | .null => false
  | .bool b => b
  | .num n => n != 0
  | .str s => s != ""
  | .arr _ => true
  | .obj _ => true

/-- Truthiness of a possibly-`undefined` value. -/
def jsTruthyOpt : Option Json → Bool
  | none => false
  | some v => jsTruthy v

mutual

/-- `String(v)` for a defined value (an array stringifies as its elements
joined by commas). -/
def jsString : Json → String
  | .null => "null"
  | .bool true => "true"
  | .bool false => "false"
  | .num n => toString n
  | .str s => s
  | .arr l => String.intercalate "," (jsStringList l)
  | .obj _ => "[object Object]"

def jsStringList : List Json → List String
  | [] => []
  | j :: rest => jsString j :: jsStringList rest

end

/-- `String(v)` where `v` may be `undefined`. -/
def jsStringOpt : Option Json → String
  | none => "undefined"
  | some v => jsString v

/-- First element of an association list with the given key (JavaScript
property lookup on an object; `none` models `undefined`). -/
def alookup {α : Type} : List (String × α) → String → Option α
  | [], _ => none
  | (k', v) :: rest, k => if k' = k then some v else alookup rest k

/-- Property assignment `o[k] = v`: an existing key keeps its position and is
overwritten, a new key is appended (JavaScript object key order). -/
def upsert {α : Type} : List (String × α) → String → α → List (String × α)
  | [], k, v => [(k, v)]
  | (k', v') :: rest, k, v =>
      if k' = k then (k, v) :: rest else (k', v') :: upsert rest k v

/-- Property access `o[k]`, including string/array numeric indexing. -/
def jsGetField : Json → String → Option Json
  | .obj fs, k => alookup fs k
  | .arr l, k => ((List.range l.length).find? fun i => Nat.repr i = k).bind l.get?
  | .str s, k =>
      ((List.range s.data.length).find? fun i => Nat.repr i = k).bind
        fun i => (s.data.get? i).map fun c => .str (String.mk [c])
  | _, _ => none

/-- `Object.keys(v)` for the values the transformer enumerates. -/
def jsKeys : Json → List String
  | .obj fs => fs.map Prod.fst
  | .arr l => (List.range l.length).map Nat.repr
  | .str s => (List.range s.data.length).map Nat.repr
  | _ => []

/-- `x ?? d` where `x` may be `undefined` (`none`) or `null`. -/
def jsCoalesce (x : Option Json) (d : Json) : Json :=
  match x with
  | none => d
  | some .null => d
  | some v => v

/-- Does `hay` contain `needle` as a contiguous sublist? -/
def hasInfix (needle : List Char) : List Char → Bool
  | [] => needle.isPrefixOf []
  | c :: rest => needle.isPrefixOf (c :: rest) || hasInfix needle rest

/-- `s.includes(needle)`. -/
def jsIncludes (s needle : String) : Bool :=
  hasInfix needle.data s.data

/-- `required?.includes(name) ?? false`.  A nullish `required` yields `false`;
an array uses SameValueZero membership; a string uses substring search; any
other defined value has no callable `includes` and raising a `TypeError` is
modelled as an error. -/
def requiredIncludes (required : Option Json) (name : String) : Except String Bool :=
  match required with
  | none => .ok false
  | some .null => .ok false
  | some (.arr l) => .ok (l.any fun j => match j with | .str s => s = name | _ => false)
  | some (.str s) => .ok (jsIncludes s name)
  | some _ => .error "TypeError: required.includes is not a function"

/-- Characters matched by `[A-Za-z0-9]` (`Char.isAlphanum` is exactly ASCII
letters and digits). -/
def sanitizeComponentName (s : String) : String :=
  ⟨s.data.map fun c => if c.isAlphanum then c else '_'⟩

/-! ## Path normalisation (`swaggerTransformer`, lines 82–86) -/

/-- Characters of the class `[a-zA-Z0-9_]`. -/
def isWordChar (c : Char) : Bool := c.isAlphanum || c = '_'

/-- `.replace(/:([a-zA-Z0-9_]+)\?/g, "{$1}")`: every occurrence of a colon
followed by a non-empty run of word characters followed by a **literal `?`**
is rewritten to the brace-wrapped run.  (The character class is uniform, so
the greedy `+` can only match the maximal run; on failure the scan resumes
one character later, i.e. right after the colon.)  Implemented as a one-pass
scanner: `acc = some w` means the scanner sits after a colon having read the
reversed word-character run `w`. -/
def paramRewriteAux : Option (List Char) → List Char → List Char
  | none, [] => []
  | none, ':' :: rest => paramRewriteAux (some []) rest
  | none, c :: rest => c :: paramRewriteAux none rest
  | some w, [] => ':' :: w.reverse
  | some w, '?' :: rest =>
      if w.isEmpty then ':' :: '?' :: paramRewriteAux none rest
      else '{' :: w.reverse ++ '}' :: paramRewriteAux none rest
  | some w, c :: rest =>
      if isWordChar c then paramRewriteAux (some (c :: w)) rest
      else if c = ':' then ':' :: w.reverse ++ paramRewriteAux (some []) rest
      else ':' :: w.reverse ++ c :: paramRewriteAux none rest

def paramRewrite (l : List Char) : List Char := paramRewriteAux none l

/-- `s.endsWith("/")`. -/
def endsWithSlash (s : String) : Bool := s.data.getLast? = some '/'

/-- `.replace(/\/{2,}/, "/")` (no `g` flag): only the **first** maximal run of
two or more slashes is collapsed to a single slash. -/
def collapseFirstSlashRun : List Char → List Char
  | '/' :: '/' :: rest => '/' :: rest.dropWhile (· = '/')
  | c :: rest => c :: collapseFirstSlashRun rest
  | [] => []

/-- Lines 82–86: concatenate root and route path, rewrite `:word?` templates,
collapse the first multi-slash run, and strip one trailing slash when longer
than a single character. -/
def fullPathOf (rootPath routePath : String) : String :=
  let fullPath : String :=
    ⟨collapseFirstSlashRun (paramRewrite (rootPath ++ routePath).data)⟩
  if endsWithSlash fullPath && fullPath.length > 1
  then ⟨fullPath.data.dropLast⟩
  else fullPath

/-- `fullPath.replace(/\//g, "_")`. -/
def slashesToUnderscores (s : String) : String :=
  ⟨s.data.map fun c => if c = '/' then '_' else c⟩

/-- `rootPath.replace(/\/+/g, " ")`: every maximal run of slashes becomes one
space (the flag records whether the scanner is inside a slash run). -/
def slashRunsToSpaceAux : Bool → List Char → List Char
  | _, [] => []
  | inRun, '/' :: rest =>
      if inRun then slashRunsToSpaceAux true rest
      else ' ' :: slashRunsToSpaceAux true rest
  | _, c :: rest => c :: slashRunsToSpaceAux false rest

def slashRunsToSpace (l : List Char) : List Char := slashRunsToSpaceAux false l

/-! ## Header-name casing and `classNameToReadable` -/

/-- One segment of `name.split("-").map(p => p[0].toUpperCase() + p.slice(1))`:
on an empty segment `p[0]` is `undefined` and `.toUpperCase()` raises a
`TypeError`. -/
def canonSegment (p : String) : Except String String :=
  match p.data with
  | [] => .error "TypeError: cannot read properties of undefined (reading toUpperCase)"
  | c :: cs => .ok ⟨c.toUpper :: cs⟩

/-- `s.split("-")` (splitting on a single character; `"".split("-")` is
`[""]`). -/
def splitOnChar (sep : Char) : List Char → List (List Char)
  | [] => [[]]
  | c :: rest =>
      if c = sep then [] :: splitOnChar sep rest
      else match splitOnChar sep rest with
        | g :: gs => (c :: g) :: gs
        | [] => [[c]]

/-- Lines 124–127: canonical header casing — split on hyphens, uppercase each
segment's first character, rejoin with hyphens. -/
def canonHeaderName (name : String) : Except String String := do
  let segs ← ((splitOnChar '-' name.data).map String.mk).mapM canonSegment
  return String.intercalate "-" segs

/-- `class-name-to-readable`: insert a space before every `[A-Z]`. -/
def insertSpaces : List Char → List Char
  | [] => []
  | c :: rest =>
      if c.isUpper then ' ' :: c :: insertSpaces rest else c :: insertSpaces rest

/-- `.trim()`: drop whitespace from both ends. -/
def jsTrim (l : List Char) : List Char :=
  ((l.dropWhile Char.isWhitespace).reverse.dropWhile Char.isWhitespace).reverse

/-- `src/unnamed/part_002`: `name.replace(/([A-Z])/g, " $1").trim()`, then
capitalise the first character and lowercase the remainder. -/
def classNameToReadable (name : String) : String :=
  let readableName := jsTrim (insertSpaces name.data)
  match readableName with
  | [] => ""
  | c :: cs => ⟨c.toUpper :: cs.map Char.toLower⟩

/-! ## `JSON.stringify` (used for the parameter dedup cache key) -/

/-- Escapes for string literals (quote, backslash and the common controls). -/
def escChar (c : Char) : String :=
  if c = '"' then "\\\""
  else if c = '\\' then "\\\\"
  else if c = '\n' then "\\n"
  else if c = '\t' then "\\t"
  else if c = '\r' then "\\r"
  else String.mk [c]

def escapeString (s : String) : String :=
  s.data.foldl (fun acc c => acc ++ escChar c) ""

mutual

def jsonStringify : Json → String
  | .null => "null"
  | .bool true => "true"
  | .bool false => "false"
  | .num n => toString n
  | .str s => "\"" ++ escapeString s ++ "\""
  | .arr l => "[" ++ stringifyArr l ++ "]"
  | .obj fs => "\x7b" ++ stringifyFields fs ++ "\x7d"

def stringifyArr : List Json → String
  | [] => ""
  | [j] => jsonStringify j
  | j :: rest => jsonStringify j ++ "," ++ stringifyArr rest

def stringifyFields : List (String × Json) → String
  | [] => ""
  | [(k, v)] => "\"" ++ escapeString k ++ "\":" ++ jsonStringify v
  | (k, v) :: rest =>
      "\"" ++ escapeString k ++ "\":" ++ jsonStringify v ++ "," ++ stringifyFields rest

end

/-! ## Input data model

The conversion capability (`j2s` composed with `withClassName`) is external;
each schema section of a route carries its conversion **result**. -/

/-- Result of `j2s(withClassName(section))`: the swagger fragment and
`components?.schemas` (`none` when `components` is absent or has no
`schemas` field; `some []` models a present-but-empty `schemas` object,
which JavaScript treats as truthy). -/
structure ConvResult where
  swagger : Json
  compSchemas : Option (List (String × Json))

/-- One entry of the `metas` array of the body schema's `describe()`.  Only
the `contentType` member is inspected (`isMultipart`). -/
structure MetaEntry where
  contentType : Option Json

/-- The body section: the data `isMultipart` inspects plus the conversion
result.  `metas = none` models `describe().metas` not being an array. -/
structure BodyInput where
  isSchema : Bool
  metas : Option (List MetaEntry)
  conv : ConvResult

/-- `isMultipart` (lines 25–32): a genuine joi schema whose `describe()`
metas array has an entry with `contentType === "multipart"`. -/
def isMultipart (b : BodyInput) : Bool :=
  b.isSchema &&
    match b.metas with
    | some l => l.any fun m =>
        match m.contentType with
        | some (.str s) => s = "multipart"
        | _ => false
    | none => false

structure RouteSchema where
  query : Option ConvResult
  params : Option ConvResult
  body : Option BodyInput
  headers : Option ConvResult

/-- A response instance's `headers` value: its own enumerable entries (as seen
by `Object.entries`) and its `get` method behaviour — `hasGet = false` models
a headers value without a callable `get`, `contentTypeGet` the value of
`get("content-type")` (`none` for `null`/`undefined`). -/
structure HeadersVal where
  entries : List (String × Json)
  hasGet : Bool
  contentTypeGet : Option String

/-- The fields of an instantiated response object that the transformer
reads. -/
structure RespInstance where
  code : Option Json
  name : Option String
  headers : Option HeadersVal
  raw : Bool
  «example» : Option Json

/-- A response-class constructor: `new Resp()` either throws or yields an
instance. -/
inductive RespCtor where
  | throws
  | inst (r : RespInstance)

/-- `m.auth`: either an array of scheme names or a scheme-name → scope-list
record. -/
inductive AuthVal where
  | names (l : List String)
  | scoped (l : List (String × List String))

structure RouteMetadata where
  description : Option String
  «example» : Option Json
  auth : Option AuthVal
  deprecated : Option Json
  responses : Option (List RespCtor)

def RouteMetadata.empty : RouteMetadata :=
  { description := none, «example» := none, auth := none, deprecated := none,
    responses := none }

structure Route where
  path : String
  method : String
  schema : Option RouteSchema
  metadata : Option RouteMetadata

structure RouterBuilder where
  root : String
  tags : Option (List String)
  registeredRoutes : List Route

structure SwaggerTransformerOptions where
  title : Option String
  description : Option String
  version : Option String
  servers : Option Json
  builders : List RouterBuilder
  securitySchemas : Option (List (String × Json))

/-! ## Output data model -/

/-- A built parameter object (`in` is a reserved word in Lean, hence
`inLoc`). -/
structure ParamObj where
  name : String
  inLoc : String
  required : Bool
  schema : Json
  description : Option Json

/-- One element pushed onto `op.parameters`.  The source only ever pushes
`{ $ref: ... }` objects, but the JavaScript array could in principle hold an
inlined parameter object, so both shapes exist in the model. -/
inductive ParamEntry where
  | ref (r : String)
  | inline (p : ParamObj)

structure ResponseObj where
  description : String
  headers : Option (List (String × Json))
  content : List (String × Json)

structure RequestBody where
  contentType : String
  schema : Json

structure Operation where
  summary : String
  operationId : String
  tags : List String
  responses : List (String × ResponseObj)
  parameters : List ParamEntry
  deprecated : Option Json
  security : Option (List (String × List String))
  requestBody : Option RequestBody

/-- The `components` collections threaded through one synthesis call. -/
structure CompState where
  schemas : List (String × Json)
  securitySchemes : List (String × Json)
  parameters : List (String × ParamObj)
  paramCache : List (String × String)

/-- All mutable state of one `swaggerTransformer` call. -/
structure TState where
  comps : CompState
  paths : List (String × List (String × Operation))
  opIdSet : List String

/-! ## Parameter components (`collect`, `resolveProps`, `pushParam`) -/

/-- `collect` (lines 45–47): `Object.assign(components.schemas, comp.schemas)`
whenever `comp?.schemas` is truthy. -/
def collectSchemas (comps : CompState) (cs : Option (List (String × Json))) :
    CompState :=
  match cs with
  | none => comps
  | some l =>
      { comps with schemas := l.foldl (fun acc kv => upsert acc kv.1 kv.2) comps.schemas }

/-- `String(x).replace(/^#\/components\/schemas\//, "")`. -/
def stripSchemasRefHead (s : String) : String :=
  let pre := "#/components/schemas/".data
  if pre.isPrefixOf s.data then ⟨s.data.drop pre.length⟩ else s

/-- `resolveProps` (lines 49–62): a directly exposed `properties` map wins;
otherwise a `$ref` fragment is looked up among the collected schema
components; otherwise there are no properties.  Returns
`(props, required)`. -/
def resolveProps (schemas : List (String × Json)) (swaggerSchema : Json) :
    Option Json × Option Json :=
  if jsTruthyOpt (jsGetField swaggerSchema "properties") then
    (jsGetField swaggerSchema "properties", jsGetField swaggerSchema "required")
  else if jsTruthyOpt (jsGetField swaggerSchema "$ref") then
    let refName := stripSchemasRefHead (jsStringOpt (jsGetField swaggerSchema "$ref"))
    match alookup schemas refName with
    | some refSchema =>
        if jsTruthyOpt (jsGetField refSchema "properties") then
          (jsGetField refSchema "properties", jsGetField refSchema "required")
        else (none, none)
    | none => (none, none)
  else (none, none)

/-- The dedup cache key (line 66): `JSON.stringify(rest)` where `rest` is the
parameter object without `in`, `name` and `required` — i.e. the object
`{ schema, description }`, the `description` key being absent when
`undefined`. -/
def paramSig (p : ParamObj) : String :=
  "\x7b\"schema\":" ++ jsonStringify p.schema ++
    (match p.description with
     | none => ""
     | some d => ",\"description\":" ++ jsonStringify d) ++ "\x7d"

/-- `pushParam` (lines 64–76): on a cache hit push a `$ref` to the cached
component name, otherwise register the parameter under the sanitised
`${loc}_${name}` and push a `$ref` to it. -/
def pushParam (comps : CompState) (paramObj : ParamObj) (arr : List ParamEntry) :
    CompState × List ParamEntry :=
  let sig := paramSig paramObj
  match alookup comps.paramCache sig with
  | some n => (comps, arr ++ [.ref ("#/components/parameters/" ++ n)])
  | none =>
      let compName := sanitizeComponentName (paramObj.inLoc ++ "_" ++ paramObj.name)
      ({ comps with
          parameters := upsert comps.parameters compName paramObj,
          paramCache := comps.paramCache ++ [(sig, compName)] },
       arr ++ [.ref ("#/components/parameters/" ++ compName)])

/-! ## Per-section parameter building -/

/-- Header parameter (lines 122–133): canonical header casing, `required`
from the required list, schema and description from the property. -/
def buildHeaderParam (props : Json) (required? : Option Json) (name : String) :
    Except String ParamObj := do
  let hname ← canonHeaderName name
  let req ← requiredIncludes required? name
  let sch := (jsGetField props name).getD .null
  return { name := hname, inLoc := "header", required := req, schema := sch,
           description := jsGetField sch "description" }

/-- Path parameter (lines 142–151): always required; the description falls
back to `"Optional parameter"` when the raw route template contains
`:name?`, else to `""`. -/
def buildPathParam (routePath : String) (props : Json) (name : String) :
    ParamObj :=
  let sch := (jsGetField props name).getD .null
  { name := name, inLoc := "path", required := true, schema := sch,
    description := some (jsCoalesce (jsGetField sch "description")
      (if jsIncludes routePath (":" ++ name ++ "?") then .str "Optional parameter"
       else .str "")) }

/-- Query parameter (lines 161–168). -/
def buildQueryParam (props : Json) (required? : Option Json) (name : String) :
    Except String ParamObj := do
  let req ← requiredIncludes required? name
  let sch := (jsGetField props name).getD .null
  return { name := name, inLoc := "query", required := req, schema := sch,
           description := jsGetField sch "description" }

/-- `Object.keys(props).forEach(name => pushParam(mkParam name, arr))`. -/
def pushParamsM (mkParam : String → Except String ParamObj) :
    List String → CompState → List ParamEntry →
    Except String (CompState × List ParamEntry)
  | [], comps, arr => .ok (comps, arr)
  | n :: ns, comps, arr => do
      let p ← mkParam n
      let (comps', arr') := pushParam comps p arr
      pushParamsM mkParam ns comps' arr'

/-- One schema section (headers / params / query): collect extracted schema
components, resolve the properties map, then build and push one parameter
per property. -/
def processSection (conv : ConvResult)
    (mkParam : Json → Option Json → String → Except String ParamObj)
    (comps : CompState) (arr : List ParamEntry) :
    Except String (CompState × List ParamEntry) :=
  let comps' := collectSchemas comps conv.compSchemas
  match resolveProps comps'.schemas conv.swagger with
  | (some props, required?) =>
      pushParamsM (mkParam props required?) (jsKeys props) comps' arr
  | (none, _) => .ok (comps', arr)

/-! ## Request body (lines 173–192) -/

/-- `bSw.$ref ? strip(bSw.$ref) : comp?.schemas ? Object.keys(comp.schemas)[0]
: null`. -/
def bodyRefName (bSw : Json) (compSchemas : Option (List (String × Json))) :
    Option String :=
  if jsTruthyOpt (jsGetField bSw "$ref") then
    some (stripSchemasRefHead (jsStringOpt (jsGetField bSw "$ref")))
  else
    match compSchemas with
    | some l => (l.map Prod.fst).head?
    | none => none

/-- The request-body object: multipart detection picks the content type; a
truthy reference target produces a `$ref` schema, otherwise the fragment is
inlined. -/
def buildRequestBody (b : BodyInput) : RequestBody :=
  let multipart := isMultipart b
  let refName := bodyRefName b.conv.swagger b.conv.compSchemas
  let ct := if multipart then "multipart/form-data" else "application/json"
  { contentType := ct,
    schema :=
      match refName with
      | some n =>
          if n = "" then b.conv.swagger
          else .obj [("$ref", .str ("#/components/schemas/" ++ n))]
      | none => b.conv.swagger }

/-! ## Responses (lines 195–250) -/

def instantiate : RespCtor → Except String RespInstance
  | .throws => .error "Error: response constructor threw during instantiation"
  | .inst r => .ok r

/-- `/^[123]/.test(String(r.code))`. -/
def isSuccessCode (code : Option Json) : Bool :=
  match (jsStringOpt code).data with
  | c :: _ => c = '1' || c = '2' || c = '3'
  | [] => false

/-- `typeof v` for the modelled values. -/
def jsTypeof : Json → String
  | .str _ => "string"
  | .num _ => "number"
  | .bool _ => "boolean"
  | .null => "object"
  | .arr _ => "object"
  | .obj _ => "object"

/-- Lines 198–206: one documentation object per declared header entry.  (The
source's `typeof v === "string" ? "string" : typeof v` is just
`typeof v`.) -/
def buildRespHeaders (h : Option HeadersVal) : List (String × Json) :=
  match h with
  | none => []
  | some hv =>
      hv.entries.map fun kv =>
        (kv.1, Json.obj [("description", .str ("Header: " ++ kv.1)),
                         ("schema", .obj [("type", .str (jsTypeof kv.2))])])

/-- `r.headers?.get("content-type") ?? "application/json"`; calling a missing
`get` raises a `TypeError`. -/
def respContentType (h : Option HeadersVal) : Except String String :=
  match h with
  | none => .ok "application/json"
  | some hv =>
      if hv.hasGet then .ok (hv.contentTypeGet.getD "application/json")
      else .error "TypeError: r.headers.get is not a function"

/-- Truthiness of `r.name`. -/
def nameTruthy : Option String → Bool
  | none => false
  | some s => s != ""

/-- The fold over `(m.responses || [])` building `op.responses` and the
`custom` flag. -/
def processResponses : List RespCtor → List (String × ResponseObj) → Bool →
    Except String (List (String × ResponseObj) × Bool)
  | [], responses, custom => .ok (responses, custom)
  | ctor :: rest, responses, custom => do
      let r ← instantiate ctor
      let hdrs := buildRespHeaders r.headers
      if isSuccessCode r.code then do
        let ct ← respContentType r.headers
        let respObj : ResponseObj :=
          { description := "Success response",
            headers := if hdrs.length != 0 then some hdrs else none,
            content := [(ct, .obj [("example",
              if !r.raw then
                .obj [("error", .null),
                      ("content", jsCoalesce r.«example» (.str "Response content"))]
              else jsCoalesce r.«example» (.str "Response content"))])] }
        processResponses rest (upsert responses (jsStringOpt r.code) respObj) true
      else if jsTruthyOpt r.code && nameTruthy r.name then
        let respObj : ResponseObj :=
          { description := classNameToReadable (r.name.getD ""),
            headers := if hdrs.length != 0 then some hdrs else none,
            content := [("application/json", .obj [("example",
              .obj [("error", .str (r.name.getD "")),
                    ("content", .str "Error message")])])] }
        processResponses rest (upsert responses (jsStringOpt r.code) respObj) custom
      else
        processResponses rest responses custom

/-- The default `200` response (lines 236–249). -/
def defaultSuccessResponse (ex : Option Json) : ResponseObj :=
  { description := "Successful response",
    headers := some [("Content-Type", .obj [
      ("description", .str "The content type of the response"),
      ("schema", .obj [("type", .str "string"), ("example", .str "application/json")])])],
    content := [("application/json", .obj [("example",
      .obj [("error", .null),
            ("content", jsCoalesce ex (.str "Response content"))])])] }

/-- The whole responses block of one route: the declared-responses fold
followed by the default-`200` fallback when no success-class response was
seen. -/
def buildResponses (m : RouteMetadata) :
    Except String (List (String × ResponseObj)) := do
  let (respMap, custom) ← processResponses (m.responses.getD []) [] false
  if !custom then return upsert respMap "200" (defaultSuccessResponse m.«example»)
  else return respMap

/-! ## Operation identifiers (lines 92–96) -/

/-- The `k`-th candidate tried by the collision loop: `baseId` itself, then
`baseId_1`, `baseId_2`, … -/
def opIdCandidate (baseId : String) : Nat → String
  | 0 => baseId
  | n + 1 => baseId ++ "_" ++ Nat.repr (n + 1)

/-- The `while (opIdSet.has(operationId))` loop, with explicit fuel: try
candidates from index `k` on.  `used.length + 1` fuel always suffices
(candidates are pairwise distinct, see `findOpId_spec`). -/
def findOpIdAux (used : List String) (baseId : String) :
    Nat → Nat → String
  | 0, k => opIdCandidate baseId k
  | fuel + 1, k =>
      if opIdCandidate baseId k ∈ used then findOpIdAux used baseId fuel (k + 1)
      else opIdCandidate baseId k

def findOpId (used : List String) (baseId : String) : String :=
  findOpIdAux used baseId (used.length + 1) 0

/-! ## Per-route processing (lines 81–253) -/

def jsToLower (s : String) : String := ⟨s.data.map Char.toLower⟩
def jsToUpper (s : String) : String := ⟨s.data.map Char.toUpper⟩

/-- `paths[fullPath][method] = op` (the slot for `fullPath` has been ensured
beforehand). -/
def setPathMethod :
    List (String × List (String × Operation)) → String → String → Operation →
    List (String × List (String × Operation))
  | [], fp, m, op => [(fp, [(m, op)])]
  | (k, ops) :: rest, fp, m, op =>
      if k = fp then (k, upsert ops m op) :: rest
      else (k, ops) :: setPathMethod rest fp m op

/-- An optional schema section: absent sections are skipped (`if (headers)`
etc.), present ones are processed. -/
def sectionOf (o : Option ConvResult)
    (mkParam : Json → Option Json → String → Except String ParamObj)
    (comps : CompState) (arr : List ParamEntry) :
    Except String (CompState × List ParamEntry) :=
  match o with
  | none => .ok (comps, arr)
  | some conv => processSection conv mkParam comps arr

/-- The schema block (lines 114–193): headers, path params, query, body, in
the source's processing order. -/
def processSchema (routePath : String) (sch : RouteSchema) (comps : CompState) :
    Except String (CompState × List ParamEntry × Option RequestBody) := do
  let (comps, arr) ← sectionOf sch.headers buildHeaderParam comps []
  let (comps, arr) ←
    sectionOf sch.params (fun props _ name => .ok (buildPathParam routePath props name))
      comps arr
  let (comps, arr) ← sectionOf sch.query buildQueryParam comps arr
  match sch.body with
  | none => return (comps, arr, none)
  | some b =>
      let comps := collectSchemas comps b.conv.compSchemas
      return (comps, arr, some (buildRequestBody b))

/-- One registered route (the body of the inner `forEach`). -/
def processRoute (rootPath : String) (btags : Option (List String))
    (st : TState) (route : Route) : Except String TState := do
  let fullPath := fullPathOf rootPath route.path
  let method := jsToLower route.method
  let paths0 :=
    if (alookup st.paths fullPath).isSome then st.paths
    else st.paths ++ [(fullPath, [])]
  let m := route.metadata.getD RouteMetadata.empty
  let baseId := method ++ "_" ++ slashesToUnderscores fullPath
  let operationId := findOpId st.opIdSet baseId
  let opIdSet' := st.opIdSet ++ [operationId]
  let tags :=
    match btags with
    | some (t :: ts) => t :: ts
    | _ => [(⟨slashRunsToSpace rootPath.data⟩ : String)]
  let security :=
    match m.auth with
    | none => none
    | some (.names l) => some (l.map fun s => (s, ([] : List String)))
    | some (.scoped l) => some l
  let (comps', params', requestBody) ←
    match route.schema with
    | none => Except.ok (st.comps, ([] : List ParamEntry), (none : Option RequestBody))
    | some sch => processSchema route.path sch st.comps
  let responses ← buildResponses m
  let op : Operation :=
    { summary := m.description.getD ("Endpoint for " ++ jsToUpper method ++ " " ++ fullPath),
      operationId := operationId,
      tags := tags,
      responses := responses,
      parameters := params',
      deprecated := m.deprecated,
      security := security,
      requestBody := requestBody }
  return { comps := comps', opIdSet := opIdSet',
           paths := setPathMethod paths0 fullPath method op }

def processRoutes (rootPath : String) (btags : Option (List String)) :
    List Route → TState → Except String TState
  | [], st => .ok st
  | r :: rs, st => do
      processRoutes rootPath btags rs (← processRoute rootPath btags st r)

def processBuilders : List RouterBuilder → TState → Except String TState
  | [], st => .ok st
  | b :: bs, st => do
      processBuilders bs (← processRoutes b.root b.tags b.registeredRoutes st)

def initialState (options : SwaggerTransformerOptions) : TState :=
  { comps := { schemas := [], securitySchemes := options.securitySchemas.getD [],
               parameters := [], paramCache := [] },
    paths := [], opIdSet := [] }

/-- The whole mutable phase of one `swaggerTransformer` call. -/
def transformState (options : SwaggerTransformerOptions) : Except String TState :=
  processBuilders options.builders (initialState options)

/-! ## Document assembly (lines 256–280) -/

structure DocInfo where
  title : String
  description : String
  version : String

structure OpenApiDoc where
  openapi : String
  info : DocInfo
  servers : Json
  paths : List (String × List (String × Operation))
  components : Option CompState

/-- `x || d` on an optional string. -/
def jsOrDefaultStr (x : Option String) (d : String) : String :=
  match x with
  | none => d
  | some s => if s = "" then d else s

def defaultServers : Json :=
  .arr [.obj [
    ("url", .str "\x7bscheme\x7d://\x7bhost\x7d:\x7bport\x7d"),
    ("variables", .obj [
      ("scheme", .obj [("default", .str "http"),
                       ("enum", .arr [.str "http", .str "https"])]),
      ("host", .obj [("default", .str "127.0.0.1")]),
      ("port", .obj [("default", .str "3000")])])]]

def buildDoc (options : SwaggerTransformerOptions) (st : TState) : OpenApiDoc :=
  { openapi := "3.0.0",
    info := { title := jsOrDefaultStr options.title "API Documentation",
              description := jsOrDefaultStr options.description
                "Auto-generated Swagger documentation",
              version := jsOrDefaultStr options.version "1.0.0" },
    servers :=
      match options.servers with
      | some v => if jsTruthy v then v else defaultServers
      | none => defaultServers,
    paths := st.paths,
    components :=
      if st.comps.schemas.length != 0 || st.comps.securitySchemes.length != 0
          || st.comps.parameters.length != 0
      then some st.comps else none }

/-- `swaggerTransformer` (line 34): run the per-route phase, then assemble
the document. -/
def swaggerTransformer (options : SwaggerTransformerOptions) :
    Except String OpenApiDoc :=
  (transformState options).map (buildDoc options)

/-! ## Observations used by the statements -/

/-- The `operationId`s of one path item's method map. -/
def opIdsOf (ops : List (String × Operation)) : List String :=
  ops.map fun q => q.2.operationId

/-- All `operationId`s reachable in the path map, in path/method order. -/
def pathOpIds (paths : List (String × List (String × Operation))) : List String :=
  paths.flatMap fun p => opIdsOf p.2

/-- The invariant tying the path map's operation ids to the id set: every id
reachable in `paths` was registered in `opIdSet`, ids in `paths` are pairwise
distinct, and so are the registered ids. -/
def idInv (st : TState) : Prop :=
  st.opIdSet.Nodup ∧ pathOpIds st.paths ⊆ st.opIdSet ∧ (pathOpIds st.paths).Nodup

/-- The parameter entries of one path item's method map. -/
def paramEntriesOf (ops : List (String × Operation)) : List ParamEntry :=
  ops.flatMap fun q => q.2.parameters

/-- All parameter entries of all operations in the path map. -/
def pathParamEntries (paths : List (String × List (String × Operation))) :
    List ParamEntry :=
  paths.flatMap fun p => paramEntriesOf p.2

/-- `e` is a `$ref` to a parameter component that exists in `params`. -/
def entryRefInto (params : List (String × ParamObj)) (e : ParamEntry) : Prop :=
  ∃ n, e = ParamEntry.ref ("#/components/parameters/" ++ n) ∧
    (alookup params n).isSome = true

/-- Every component name stored in the dedup cache is a key of the
parameters component map. -/
def cacheOK (comps : CompState) : Prop :=
  ∀ p ∈ comps.paramCache, (alookup comps.parameters p.2).isSome = true

/-- The reference invariant of a transformer state: the cache invariant
holds and every parameter entry reachable in the path map is a valid
component reference. -/
def refInv (st : TState) : Prop :=
  cacheOK st.comps ∧
  ∀ e ∈ pathParamEntries st.paths, entryRefInto st.comps.parameters e

/-- What one parameter-building stage guarantees: the cache invariant holds
afterwards, parameter-map keys survive, and every entry of the output array
is either an old entry or a valid component reference. -/
def secStep (comps : CompState) (arr : List ParamEntry)
    (comps' : CompState) (arr' : List ParamEntry) : Prop :=
  cacheOK comps' ∧
  (∀ n, (alookup comps.parameters n).isSome = true →
        (alookup comps'.parameters n).isSome = true) ∧
  (∀ e ∈ arr', e ∈ arr ∨ entryRefInto comps'.parameters e)

/-- No two adjacent slashes. -/
def noDoubleSlash : List Char → Bool
  | '/' :: '/' :: _ => false
  | _ :: rest => noDoubleSlash rest
  | [] => true

/-- Number of maximal runs of two or more consecutive slashes.  The `state`
is 0 outside a slash run, 1 after one slash, 2 inside an already-counted
run. -/
def slashRunsAux : Nat → List Char → Nat
  | _, [] => 0
  | state, '/' :: rest =>
      if state = 0 then slashRunsAux 1 rest
      else if state = 1 then 1 + slashRunsAux 2 rest
      else slashRunsAux 2 rest
  | _, _ :: rest => slashRunsAux 0 rest

def slashRuns (l : List Char) : Nat := slashRunsAux 0 l

/-- Decimal value of a digit string (used to invert `Nat.repr`). -/
def digitsVal (l : List Char) : Nat :=
  l.foldl (fun acc c => 10 * acc + (c.toNat - '0'.toNat)) 0

/-! ## Concrete inputs for the individual claims -/

def mkOptions (builders : List RouterBuilder) : SwaggerTransformerOptions :=
  { title := none, description := none, version := none, servers := none,
    builders := builders, securitySchemas := none }

/-- A route with no schema and no metadata. -/
def plainRoute (p : String) : Route :=
  { path := p, method := "GET", schema := none, metadata := none }

/-- Three plain GET routes: `/a_1` occupies the id `get__a_1` before the two
`/a` routes (sharing base id `get__a`) are processed. -/
def c1Options : SwaggerTransformerOptions :=
  mkOptions [{ root := "", tags := none,
               registeredRoutes := [plainRoute "/a_1", plainRoute "/a", plainRoute "/a"] }]

/-- A conversion result exposing a single property `name ↦ S`. -/
def headerConv (name : String) (S : Json) : ConvResult :=
  { swagger := Json.obj [("properties", Json.obj [(name, S)])], compSchemas := none }

/-- A GET route declaring only a headers schema with the single property
`name ↦ S`. -/
def headerRoute (p name : String) (S : Json) : Route :=
  { path := p, method := "GET",
    schema := some { query := none, params := none, body := none,
                     headers := some (headerConv name S) },
    metadata := none }

/-- Two distinct routes declaring the same header parameter (same property
name, same converted schema, hence same description). -/
def c2Options (name : String) (S : Json) : SwaggerTransformerOptions :=
  mkOptions [{ root := "", tags := none,
               registeredRoutes := [headerRoute "/x" name S, headerRoute "/y" name S] }]

/-- One route declaring the same property `h ↦ S` both as a header schema and
as a query schema: identical content, different derived component names. -/
def c3Route (S : Json) : Route :=
  { path := "/x", method := "GET",
    schema := some { query := some (headerConv "h" S), params := none,
                     body := none, headers := some (headerConv "h" S) },
    metadata := none }

def c3Options (S : Json) : SwaggerTransformerOptions :=
  mkOptions [{ root := "", tags := none, registeredRoutes := [c3Route S] }]

/-- The header parameter object the transformer builds for a single property
`name ↦ S` with canonical casing `cn` and no required list. -/
def hdrParamObj (cn : String) (S : Json) : ParamObj :=
  { name := cn, inLoc := "header", required := false, schema := S,
    description := jsGetField S "description" }

/-- The derived component name of a header parameter. -/
def hdrCompName (cn : String) : String := sanitizeComponentName ("header_" ++ cn)

/-- A body conversion producing a non-reference fragment and **two** extracted
named components. -/
def c8Body : BodyInput :=
  { isSchema := true, metas := none,
    conv := { swagger := Json.obj [("type", Json.str "object")],
              compSchemas := some [("A", Json.obj [("type", Json.str "object")]),
                                   ("B", Json.obj [("type", Json.str "object")])] } }

/-- A headers schema with the property name `x--y` (legal in a schema, but
hyphen-splitting produces an empty segment). -/
def c9Conv : ConvResult :=
  { swagger := Json.obj [("properties",
      Json.obj [("x--y", Json.obj [("type", Json.str "string")])])],
    compSchemas := none }

def c9Route : Route :=
  { path := "/x", method := "GET",
    schema := some { query := none, params := none, body := none,
                     headers := some c9Conv },
    metadata := none }

def c9Options : SwaggerTransformerOptions :=
  mkOptions [{ root := "", tags := none, registeredRoutes := [c9Route] }]

/-! # Theorems -/

/-! ## Small lemmas about the association-list primitives -/

theorem alookup_upsert_self {α : Type} (l : List (String × α)) (k : String) (v : α) :
    alookup (upsert l k v) k = some v := by
  induction l with
  | nil => simp [upsert, alookup]
  | cons hd tl ih =>
      obtain ⟨k', v'⟩ := hd
      by_cases h : k' = k <;> simp [upsert, alookup, h, ih]

theorem alookup_upsert_ne {α : Type} (l : List (String × α)) (k k' : String) (v : α)
    (h : k ≠ k') : alookup (upsert l k v) k' = alookup l k' := by
  induction l with
  | nil => simp [upsert, alookup, h]
  | cons hd tl ih =>
      obtain ⟨k₀, v₀⟩ := hd
      by_cases h₀ : k₀ = k
      · subst h₀; simp [upsert, alookup, h]
      · simp [upsert, alookup, h₀, ih]

theorem exceptBind_ok {ε α β : Type} (a : α) (f : α → Except ε β) :
    (Except.ok a >>= f) = f a := rfl

theorem exceptBind_error {ε α β : Type} (e : ε) (f : α → Except ε β) :
    ((Except.error e : Except ε α) >>= f) = Except.error e := rfl

theorem exceptPure {ε α : Type} (a : α) : (pure a : Except ε α) = Except.ok a := rfl

/-! ## C4 -/

/-- **C4** (code bug): the template rewrite only fires on `:<word>?` with the
literal optional marker; a plain `:<word>` parameter passes through
unrewritten, although `:<word>?` is rewritten as claimed.  Evaluated at the
failing input `root = ""`, `path = "/:id"`. -/
theorem C4_plain_colon_param_not_rewritten :
    fullPathOf "" "/:id" = "/:id" ∧ fullPathOf "" "/:id?" = "/\x7bid\x7d" := by
  constructor <;> rfl

/-! ## C5 -/

/-- **C5** (counterexample): the slash-collapsing regex has no `g` flag, so
only the first run collapses: `/a//b//c` normalises to `/a/b//c`, which still
contains `//`; and `/a//b//` normalises to `/a/b/`, which still ends with a
slash although it is longer than one character. -/
theorem C5_counterexample :
    fullPathOf "" "/a//b//c" = "/a/b//c" ∧
    jsIncludes (fullPathOf "" "/a//b//c") "//" = true ∧
    fullPathOf "" "/a//b//" = "/a/b/" ∧
    endsWithSlash (fullPathOf "" "/a//b//") = true := by
  refine ⟨by rfl, by rfl, by rfl, by rfl⟩

/-! ## C8 -/

/-- **C8** (counterexample): with a non-reference fragment and **two**
extracted components, the claim predicts the fragment is inlined, but the
code emits a `$ref` to the *first* extracted component. -/
theorem C8_counterexample :
    (buildRequestBody c8Body).schema
        = Json.obj [("$ref", Json.str "#/components/schemas/A")] ∧
    (buildRequestBody c8Body).schema ≠ c8Body.conv.swagger := by
  constructor
  · rfl
  · intro h
    simp [c8Body, buildRequestBody, bodyRefName, jsGetField, alookup,
      jsTruthyOpt, stripSchemasRefHead, isMultipart, jsStringOpt] at h

/-- **C8** (amended): the content type is `multipart/form-data` iff the
multipart marker is present, `application/json` otherwise; the body schema is
a `$ref` to the fragment's own target when the fragment is a truthy
reference (unless the stripped target name is empty), else to the **first**
extracted component when at least one was extracted (unless its name is
empty), and the fragment is inlined in every remaining case. -/
theorem C8_amended (b : BodyInput) :
    (buildRequestBody b).contentType
        = (if isMultipart b then "multipart/form-data" else "application/json") ∧
    (jsTruthyOpt (jsGetField b.conv.swagger "$ref") = true →
      ∀ n, stripSchemasRefHead (jsStringOpt (jsGetField b.conv.swagger "$ref")) = n →
        (buildRequestBody b).schema =
          (if n = "" then b.conv.swagger
           else Json.obj [("$ref", Json.str ("#/components/schemas/" ++ n))])) ∧
    (jsTruthyOpt (jsGetField b.conv.swagger "$ref") = false →
      ∀ n s l, b.conv.compSchemas = some ((n, s) :: l) →
        (buildRequestBody b).schema =
          (if n = "" then b.conv.swagger
           else Json.obj [("$ref", Json.str ("#/components/schemas/" ++ n))])) ∧
    (jsTruthyOpt (jsGetField b.conv.swagger "$ref") = false →
      (b.conv.compSchemas = none ∨ b.conv.compSchemas = some []) →
      (buildRequestBody b).schema = b.conv.swagger) := by
  refine ⟨rfl, ?_, ?_, ?_⟩
  · intro htr n hn
    simp [buildRequestBody, bodyRefName, htr, hn]
  · intro htr n s l hcs
    simp [buildRequestBody, bodyRefName, htr, hcs]
  · intro htr hcs
    rcases hcs with h | h <;> simp [buildRequestBody, bodyRefName, htr, h]

/-- Witness for `C8_amended` at the concrete input `c8Body`. -/
theorem C8_amended_witness :
    (buildRequestBody c8Body).contentType = "application/json" ∧
    (buildRequestBody c8Body).schema
        = Json.obj [("$ref", Json.str "#/components/schemas/A")] := by
  have h := C8_amended c8Body
  refine ⟨h.1.trans (by rfl), ?_⟩
  have h3 := h.2.2.1 (by rfl) "A" (Json.obj [("type", Json.str "object")])
    [("B", Json.obj [("type", Json.str "object")])] (by rfl)
  simpa using h3

/-! ## C9 -/

/-- **C9** (code bug): on a route whose headers schema exposes the property
name `x--y` — no response constructor present, conversion result supplied —
the transformer does not return a document: splitting the name on `-` yields
an empty segment, `p[0]` is `undefined`, and `.toUpperCase()` raises a
`TypeError`, contradicting the claim that only constructor throws and
converter failures raise. -/
theorem C9_header_name_typeerror :
    transformState c9Options =
      Except.error "TypeError: cannot read properties of undefined (reading toUpperCase)" := by
  rfl

/-! ## C7 -/

/-- **C7** (confirmed): every path parameter is emitted with
`required = true` regardless of the schema's own required list, and when the
property's schema has no (or a `null`) `description` and the raw route
template contains `:name?`, the description defaults to
`"Optional parameter"`. -/
theorem C7_path_params_required :
    ∀ (routePath : String) (props : Json) (name : String),
    (buildPathParam routePath props name).required = true ∧
    ((jsGetField ((jsGetField props name).getD .null) "description" = none ∨
      jsGetField ((jsGetField props name).getD .null) "description" = some .null) →
      jsIncludes routePath (":" ++ name ++ "?") = true →
      (buildPathParam routePath props name).description
        = some (.str "Optional parameter")) := by
  intro routePath props name
  refine ⟨rfl, ?_⟩
  intro hdesc hopt
  rcases hdesc with h | h <;> simp [buildPathParam, h, hopt, jsCoalesce]

/-- Witness for `C7_path_params_required` at a concrete route and schema. -/
theorem C7_path_params_required_witness :
    (buildPathParam "/:id?" (Json.obj [("id", Json.obj [])]) "id").required = true ∧
    (buildPathParam "/:id?" (Json.obj [("id", Json.obj [])]) "id").description
      = some (.str "Optional parameter") :=
  ⟨(C7_path_params_required "/:id?" (Json.obj [("id", Json.obj [])]) "id").1,
   (C7_path_params_required "/:id?" (Json.obj [("id", Json.obj [])]) "id").2
     (Or.inl (by rfl)) (by rfl)⟩

/-! ## C6 -/

/-- The declared-responses fold never sets the `custom` flag when no
instantiated response has a success-class status code. -/
theorem processResponses_custom_eq {ctors : List RespCtor}
    (h : ∀ r, RespCtor.inst r ∈ ctors → isSuccessCode r.code = false) :
    ∀ {acc : List (String × ResponseObj)} {custom : Bool}
      {rs : List (String × ResponseObj)} {custom' : Bool},
      processResponses ctors acc custom = .ok (rs, custom') → custom' = custom := by
  induction ctors with
  | nil =>
      intro acc custom rs custom' hrun
      simp [processResponses] at hrun
      exact hrun.2.symm
  | cons ctor rest ih =>
      intro acc custom rs custom' hrun
      cases ctor with
      | throws =>
          simp [processResponses, instantiate, exceptBind_error] at hrun
      | inst r =>
          have hr : isSuccessCode r.code = false := h r (by simp)
          simp only [processResponses, instantiate, exceptBind_ok, hr,
            Bool.false_eq_true, if_false] at hrun
          have h' : ∀ r', RespCtor.inst r' ∈ rest → isSuccessCode r'.code = false :=
            fun r' hm => h r' (by simp [hm])
          split at hrun
          · exact ih h' hrun
          · exact ih h' hrun

/-- **C6** (confirmed): when no declared response is success-class, the built
responses map contains the synthesized `200` entry — description
`"Successful response"`, a single `Content-Type` header documented with
example `application/json`, and the JSON example
`{ error: null, content: <route-level example or "Response content"> }` —
and a route with no declared responses and no route-level example gets
exactly this single `200` response. -/
theorem C6_default_200 (m : RouteMetadata) (rs : List (String × ResponseObj))
    (hok : buildResponses m = .ok rs)
    (hnosucc : ∀ r, RespCtor.inst r ∈ m.responses.getD [] → isSuccessCode r.code = false) :
    alookup rs "200" = some
      { description := "Successful response",
        headers := some [("Content-Type", Json.obj [
          ("description", Json.str "The content type of the response"),
          ("schema", Json.obj [("type", Json.str "string"),
                               ("example", Json.str "application/json")])])],
        content := [("application/json", Json.obj [("example",
          Json.obj [("error", Json.null),
            ("content", jsCoalesce m.«example» (Json.str "Response content"))])])] } ∧
    (m.responses.getD [] = [] ∧ m.«example» = none →
      rs = [("200", defaultSuccessResponse none)]) := by
  unfold buildResponses at hok
  cases hpr : processResponses (m.responses.getD []) [] false with
  | error e => simp [hpr, exceptBind_error] at hok
  | ok pair =>
      obtain ⟨respMap, custom⟩ := pair
      have hc : custom = false := processResponses_custom_eq hnosucc hpr
      subst hc
      simp only [hpr, exceptBind_ok, Bool.not_false, if_true, exceptPure,
        Except.ok.injEq] at hok
      constructor
      · rw [← hok]
        exact alookup_upsert_self _ _ _
      · rintro ⟨hempty, hex⟩
        rw [hempty] at hpr
        simp [processResponses] at hpr
        rw [← hok, hpr, hex]
        rfl

/-- Witness for `C6_default_200`: a route with no metadata at all. -/
theorem C6_default_200_witness :
    buildResponses RouteMetadata.empty = .ok [("200", defaultSuccessResponse none)] ∧
    alookup [("200", defaultSuccessResponse none)] "200" = some
      { description := "Successful response",
        headers := some [("Content-Type", Json.obj [
          ("description", Json.str "The content type of the response"),
          ("schema", Json.obj [("type", Json.str "string"),
                               ("example", Json.str "application/json")])])],
        content := [("application/json", Json.obj [("example",
          Json.obj [("error", Json.null),
            ("content", Json.str "Response content")])])] } :=
  ⟨by rfl,
   (C6_default_200 RouteMetadata.empty [("200", defaultSuccessResponse none)]
      (by rfl) (by simp [RouteMetadata.empty])).1⟩


/-! ## C1: operation-id machinery -/

theorem digitsVal_shift (l : List Char) (a : Nat) :
    l.foldl (fun acc c => 10 * acc + (c.toNat - '0'.toNat)) a
      = a * 10 ^ l.length + digitsVal l := by
  induction l generalizing a with
  | nil => simp [digitsVal]
  | cons c t ih =>
      simp only [List.foldl_cons, List.length_cons, digitsVal]
      rw [ih, ih (10 * 0 + (c.toNat - '0'.toNat))]
      ring

theorem digitsVal_cons (c : Char) (t : List Char) :
    digitsVal (c :: t) = (c.toNat - '0'.toNat) * 10 ^ t.length + digitsVal t := by
  show List.foldl _ _ (c :: t) = _
  rw [List.foldl_cons, digitsVal_shift]
  norm_num

theorem digitChar_val (k : Nat) (hk : k < 10) :
    (Nat.digitChar k).toNat - '0'.toNat = k := by
  interval_cases k <;> rfl

theorem toDigitsCore_val :
    ∀ (f n : Nat) (l : List Char), n < 10 ^ f →
      digitsVal (Nat.toDigitsCore 10 f n l) = n * 10 ^ l.length + digitsVal l := by
  intro f
  induction f with
  | zero =>
      intro n l hn
      interval_cases n
      simp [Nat.toDigitsCore]
  | succ f ih =>
      intro n l hn
      rw [Nat.toDigitsCore]
      by_cases h0 : n / 10 = 0
      · have hlt : n < 10 := by omega
        simp only [h0, if_true, reduceIte]
        rw [digitsVal_cons, digitChar_val (n % 10) (Nat.mod_lt _ (by norm_num)),
          Nat.mod_eq_of_lt hlt]
      · have hdiv : n / 10 < 10 ^ f := by
          rw [Nat.div_lt_iff_lt_mul (by norm_num)]
          calc n < 10 ^ (f + 1) := hn
            _ = 10 ^ f * 10 := by ring
        simp only [h0, reduceIte]
        rw [ih (n / 10) (Nat.digitChar (n % 10) :: l) hdiv, digitsVal_cons,
          digitChar_val (n % 10) (Nat.mod_lt _ (by norm_num))]
        have hdm : 10 * (n / 10) + n % 10 = n := Nat.div_add_mod n 10
        conv_rhs => rw [← hdm]
        simp only [List.length_cons]
        ring

theorem digitsVal_repr (n : Nat) : digitsVal (Nat.repr n).data = n := by
  have h2 : n < 10 ^ (n + 1) :=
    lt_of_lt_of_le (Nat.lt_two_pow n)
      (le_trans (Nat.pow_le_pow_left (by norm_num) n)
        (Nat.pow_le_pow_right (by norm_num) (by omega)))
  show digitsVal (Nat.toDigitsCore 10 (n + 1) n []) = n
  rw [toDigitsCore_val (n + 1) n [] h2]
  simp [digitsVal]

theorem opIdCandidate_injective (base : String) :
    Function.Injective (opIdCandidate base) := by
  intro j k h
  match j, k with
  | 0, 0 => rfl
  | 0, k + 1 =>
      exfalso
      have hd := congrArg String.data h
      simp only [opIdCandidate] at hd
      have := congrArg List.length hd
      simp [String.data_append] at this
  | j + 1, 0 =>
      exfalso
      have hd := congrArg String.data h
      simp only [opIdCandidate] at hd
      have := congrArg List.length hd
      simp [String.data_append] at this
  | j + 1, k + 1 =>
      have hd := congrArg String.data h
      simp only [opIdCandidate, String.data_append, List.append_assoc] at hd
      have hcancel := List.append_cancel_left hd
      have hcancel2 := List.append_cancel_left hcancel
      have hval : digitsVal (Nat.repr (j + 1)).data = digitsVal (Nat.repr (k + 1)).data := by
        rw [hcancel2]
      rw [digitsVal_repr, digitsVal_repr] at hval
      omega

theorem findOpIdAux_not_mem (used : List String) (base : String) :
    ∀ (fuel k : Nat), (∃ j, j < fuel ∧ opIdCandidate base (k + j) ∉ used) →
      findOpIdAux used base fuel k ∉ used := by
  intro fuel
  induction fuel with
  | zero =>
      rintro k ⟨j, hj, _⟩
      omega
  | succ fuel ih =>
      rintro k ⟨j, hj, hfree⟩
      rw [findOpIdAux]
      by_cases hmem : opIdCandidate base k ∈ used
      · rw [if_pos hmem]
        apply ih (k + 1)
        cases j with
        | zero => exact absurd hmem (by simpa using hfree)
        | succ j' =>
            refine ⟨j', by omega, ?_⟩
            have : k + 1 + j' = k + (j' + 1) := by omega
            rw [this]
            exact hfree
      · rw [if_neg hmem]
        exact hmem

theorem findOpId_not_mem (used : List String) (base : String) :
    findOpId used base ∉ used := by
  apply findOpIdAux_not_mem
  by_contra hcon
  push_neg at hcon
  have hall : ∀ j, j < used.length + 1 → opIdCandidate base j ∈ used := by
    intro j hj
    have := hcon j hj
    simpa using this
  have hsub : ((List.range (used.length + 1)).map (opIdCandidate base)) ⊆ used := by
    intro x hx
    obtain ⟨j, hj, rfl⟩ := List.mem_map.mp hx
    exact hall j (List.mem_range.mp hj)
  have hnodup : ((List.range (used.length + 1)).map (opIdCandidate base)).Nodup :=
    (List.nodup_range _).map (opIdCandidate_injective base)
  have hcard1 : ((List.range (used.length + 1)).map (opIdCandidate base)).toFinset.card
      = used.length + 1 := by
    rw [List.toFinset_card_of_nodup hnodup]
    simp
  have hcard2 : ((List.range (used.length + 1)).map (opIdCandidate base)).toFinset.card
      ≤ used.toFinset.card := by
    apply Finset.card_le_card
    intro x hx
    rw [List.mem_toFinset] at hx ⊢
    exact hsub hx
  have hcard3 : used.toFinset.card ≤ used.length := List.toFinset_card_le used
  omega



/-! ## C1: uniqueness of operation ids -/

theorem opIdsOf_upsert_subset (ops : List (String × Operation)) (m : String) (op : Operation) :
    opIdsOf (upsert ops m op) ⊆ op.operationId :: opIdsOf ops := by
  induction ops with
  | nil => simp [upsert, opIdsOf]
  | cons hd tl ih =>
      obtain ⟨k, v⟩ := hd
      by_cases hk : k = m
      · subst hk
        simp only [upsert, reduceIte, opIdsOf, List.map_cons]
        intro x hx
        rcases List.mem_cons.mp hx with h | h
        · simp [h]
        · simp [List.mem_cons, h]
      · simp only [upsert, hk, if_false, reduceIte, opIdsOf, List.map_cons]
        intro x hx
        rcases List.mem_cons.mp hx with h | h
        · simp [h]
        · rcases List.mem_cons.mp (ih h) with h' | h'
          · simp [h']
          · simp [opIdsOf] at h' ⊢
            tauto

theorem opIdsOf_upsert_nodup (ops : List (String × Operation)) (m : String) (op : Operation)
    (h1 : (opIdsOf ops).Nodup) (h2 : op.operationId ∉ opIdsOf ops) :
    (opIdsOf (upsert ops m op)).Nodup := by
  induction ops with
  | nil => simp [upsert, opIdsOf]
  | cons hd tl ih =>
      obtain ⟨k, v⟩ := hd
      simp only [opIdsOf, List.map_cons, List.nodup_cons] at h1
      simp only [opIdsOf, List.map_cons, List.mem_cons] at h2
      push_neg at h2
      by_cases hk : k = m
      · subst hk
        simp only [upsert, reduceIte, opIdsOf, List.map_cons, List.nodup_cons]
        exact ⟨h2.2, h1.2⟩
      · simp only [upsert, hk, if_false, reduceIte, opIdsOf, List.map_cons, List.nodup_cons]
        constructor
        · intro hmem
          rcases List.mem_cons.mp (opIdsOf_upsert_subset tl m op hmem) with h | h
          · exact h2.1 h.symm
          · exact h1.1 h
        · exact ih h1.2 h2.2

theorem pathOpIds_cons (p : String × List (String × Operation)) (rest) :
    pathOpIds (p :: rest) = opIdsOf p.2 ++ pathOpIds rest := by
  simp [pathOpIds]

theorem pathOpIds_append (a b : List (String × List (String × Operation))) :
    pathOpIds (a ++ b) = pathOpIds a ++ pathOpIds b := by
  simp [pathOpIds]

theorem pathOpIds_set_subset (paths) (fp m : String) (op : Operation) :
    pathOpIds (setPathMethod paths fp m op) ⊆ op.operationId :: pathOpIds paths := by
  induction paths with
  | nil => simp [setPathMethod, pathOpIds, opIdsOf]
  | cons hd tl ih =>
      obtain ⟨k, ops⟩ := hd
      by_cases hk : k = fp
      · subst hk
        simp only [setPathMethod, reduceIte, pathOpIds_cons]
        intro x hx
        rcases List.mem_append.mp hx with h | h
        · rcases List.mem_cons.mp (opIdsOf_upsert_subset ops m op h) with h' | h'
          · simp [h']
          · simp [pathOpIds_cons, List.mem_append, h']
        · simp [pathOpIds_cons, List.mem_append, h]
      · simp only [setPathMethod, hk, if_false, reduceIte, pathOpIds_cons]
        intro x hx
        rcases List.mem_append.mp hx with h | h
        · simp [pathOpIds_cons, List.mem_append, h]
        · rcases List.mem_cons.mp (ih h) with h' | h'
          · simp [h']
          · simp [pathOpIds_cons, List.mem_append, h']

theorem pathOpIds_set_nodup (paths) (fp m : String) (op : Operation)
    (h1 : (pathOpIds paths).Nodup) (h2 : op.operationId ∉ pathOpIds paths) :
    (pathOpIds (setPathMethod paths fp m op)).Nodup := by
  induction paths with
  | nil => simp [setPathMethod, pathOpIds, opIdsOf]
  | cons hd tl ih =>
      obtain ⟨k, ops⟩ := hd
      rw [pathOpIds_cons] at h1 h2
      rw [List.nodup_append] at h1
      simp only [List.mem_append] at h2
      push_neg at h2
      by_cases hk : k = fp
      · subst hk
        simp only [setPathMethod, reduceIte, pathOpIds_cons]
        rw [List.nodup_append]
        refine ⟨opIdsOf_upsert_nodup ops m op h1.1 h2.1, h1.2.1, ?_⟩
        intro x hx hx'
        rcases List.mem_cons.mp (opIdsOf_upsert_subset ops m op hx) with h | h
        · exact h2.2 (h ▸ hx')
        · exact h1.2.2 h hx'
      · simp only [setPathMethod, hk, if_false, reduceIte, pathOpIds_cons]
        rw [List.nodup_append]
        refine ⟨h1.1, ih h1.2.1 h2.2, ?_⟩
        intro x hx hx'
        rcases List.mem_cons.mp (pathOpIds_set_subset tl fp m op hx') with h | h
        · exact h2.1 (h ▸ hx)
        · exact h1.2.2 hx h

theorem processRoute_shape {rootPath : String} {btags : Option (List String)}
    {st : TState} {route : Route} {st' : TState}
    (h : processRoute rootPath btags st route = .ok st') :
    ∃ op : Operation,
      op.operationId = findOpId st.opIdSet
        (jsToLower route.method ++ "_" ++
          slashesToUnderscores (fullPathOf rootPath route.path)) ∧
      st'.opIdSet = st.opIdSet ++ [op.operationId] ∧
      st'.paths = setPathMethod
        (if (alookup st.paths (fullPathOf rootPath route.path)).isSome then st.paths
         else st.paths ++ [(fullPathOf rootPath route.path, [])])
        (fullPathOf rootPath route.path) (jsToLower route.method) op 
:= by
  rcases hsch : route.schema with _ | sch
  · simp only [processRoute, hsch, exceptBind_ok] at h
    cases hE2 : buildResponses (route.metadata.getD RouteMetadata.empty) with
    | error e =>
        rw [hE2] at h
        simp [exceptBind_error] at h
    | ok responses =>
        rw [hE2] at h
        simp only [exceptBind_ok, exceptPure, Except.ok.injEq] at h
        subst h
        exact ⟨_, rfl, rfl, rfl⟩
  · simp only [processRoute, hsch] at h
    cases hE1 : processSchema route.path sch st.comps with
    | error e =>
        rw [hE1] at h
        simp [exceptBind_error] at h
    | ok trip =>
        obtain ⟨comps', params', requestBody⟩ := trip
        rw [hE1] at h
        simp only [exceptBind_ok] at h
        cases hE2 : buildResponses (route.metadata.getD RouteMetadata.empty) with
        | error e =>
            rw [hE2] at h
            simp [exceptBind_error] at h
        | ok responses =>
            rw [hE2] at h
            simp only [exceptBind_ok, exceptPure, Except.ok.injEq] at h
            subst h
            exact ⟨_, rfl, rfl, rfl⟩

theorem processRoute_idInv {rootPath : String} {btags : Option (List String)}
    {st : TState} {route : Route} {st' : TState}
    (h : processRoute rootPath btags st route = .ok st') (hinv : idInv st) :
    idInv st' := by
  obtain ⟨op, hopid, hset, hpaths⟩ := processRoute_shape h
  obtain ⟨hnodupSet, hsub, hnodupPaths⟩ := hinv
  have hfresh : op.operationId ∉ st.opIdSet := by
    rw [hopid]; exact findOpId_not_mem _ _
  have hp0 : pathOpIds
      (if (alookup st.paths (fullPathOf rootPath route.path)).isSome then st.paths
       else st.paths ++ [(fullPathOf rootPath route.path, [])]) = pathOpIds st.paths := by
    by_cases hc : (alookup st.paths (fullPathOf rootPath route.path)).isSome
    · simp [hc]
    · simp [hc, pathOpIds_append, pathOpIds, opIdsOf]
  have hfreshPaths : op.operationId ∉ pathOpIds st.paths :=
    fun hcon => hfresh (hsub hcon)
  refine ⟨?_, ?_, ?_⟩
  · rw [hset]
    rw [List.nodup_append]
    exact ⟨hnodupSet, List.nodup_singleton _, by
      intro x hx hx'
      simp only [List.mem_singleton] at hx'
      exact hfresh (hx' ▸ hx)⟩
  · rw [hset, hpaths]
    intro x hx
    rcases List.mem_cons.mp (pathOpIds_set_subset _ _ _ _ hx) with h' | h'
    · simp [h']
    · rw [hp0] at h'
      exact List.mem_append.mpr (Or.inl (hsub h'))
  · rw [hpaths]
    apply pathOpIds_set_nodup
    · rw [hp0]; exact hnodupPaths
    · rw [hp0]; exact hfreshPaths

theorem processRoutes_idInv {rootPath : String} {btags : Option (List String)} :
    ∀ {routes : List Route} {st st' : TState},
      processRoutes rootPath btags routes st = .ok st' → idInv st → idInv st' := by
  intro routes
  induction routes with
  | nil =>
      intro st st' h hinv
      simp [processRoutes] at h
      exact h ▸ hinv
  | cons r rs ih =>
      intro st st' h hinv
      simp only [processRoutes] at h
      cases hr : processRoute rootPath btags st r with
      | error e => rw [hr] at h; simp [exceptBind_error] at h
      | ok st₁ =>
          rw [hr] at h
          simp only [exceptBind_ok] at h
          exact ih h (processRoute_idInv hr hinv)

theorem processBuilders_idInv :
    ∀ {bs : List RouterBuilder} {st st' : TState},
      processBuilders bs st = .ok st' → idInv st → idInv st' := by
  intro bs
  induction bs with
  | nil =>
      intro st st' h hinv
      simp [processBuilders] at h
      exact h ▸ hinv
  | cons b rest ih =>
      intro st st' h hinv
      simp only [processBuilders] at h
      cases hr : processRoutes b.root b.tags b.registeredRoutes st with
      | error e => rw [hr] at h; simp [exceptBind_error] at h
      | ok st₁ =>
          rw [hr] at h
          simp only [exceptBind_ok] at h
          exact ih h (processRoutes_idInv hr hinv)

theorem transformState_idInv {options : SwaggerTransformerOptions} {st : TState}
    (h : transformState options = .ok st) : idInv st :=
  processBuilders_idInv h ⟨List.nodup_nil, by simp [pathOpIds, initialState], List.nodup_nil⟩

theorem C1_counterexample :
    (transformState c1Options).toOption.map (fun st => st.opIdSet)
        = some ["get__a_1", "get__a", "get__a_2"] ∧
    (transformState c1Options).toOption.map (fun st => st.opIdSet.drop 1)
        ≠ some ["get__a", "get__a_1"] := by
  constructor
  · decide
  · decide

theorem C1_unique_operation_ids (options : SwaggerTransformerOptions)
    (doc : OpenApiDoc) (h : swaggerTransformer options = .ok doc) :
    (pathOpIds doc.paths).Nodup := by
  unfold swaggerTransformer at h
  cases ht : transformState options with
  | error e => rw [ht] at h; simp [Except.map] at h
  | ok st =>
      rw [ht] at h
      simp only [Except.map, Except.ok.injEq] at h
      subst h
      exact (transformState_idInv ht).2.2

theorem C1_unique_operation_ids_witness :
    (pathOpIds ((swaggerTransformer c1Options).toOption.getD
      (buildDoc c1Options (initialState c1Options))).paths).Nodup :=
  C1_unique_operation_ids c1Options
    ((swaggerTransformer c1Options).toOption.getD
      (buildDoc c1Options (initialState c1Options))) (by rfl)


/-! ## C10: every operation parameter is a valid component reference -/

theorem alookup_mem {α : Type} {l : List (String × α)} {k : String} {v : α}
    (h : alookup l k = some v) : (k, v) ∈ l := by
  induction l with
  | nil => simp [alookup] at h
  | cons hd tl ih =>
      obtain ⟨k', v'⟩ := hd
      by_cases hk : k' = k
      · subst hk
        simp [alookup] at h
        simp [h]
      · simp [alookup, hk] at h
        simp [ih h]

theorem alookup_isSome_upsert {α : Type} (l : List (String × α)) (k k' : String) (v : α)
    (h : (alookup l k').isSome = true) : (alookup (upsert l k v) k').isSome = true := by
  by_cases hk : k = k'
  · subst hk
    rw [alookup_upsert_self]
    rfl
  · rw [alookup_upsert_ne _ _ _ _ hk]
    exact h

theorem entryRefInto_mono {a b : List (String × ParamObj)} {e : ParamEntry}
    (hmono : ∀ n, (alookup a n).isSome = true → (alookup b n).isSome = true)
    (h : entryRefInto a e) : entryRefInto b e := by
  obtain ⟨n, he, hn⟩ := h
  exact ⟨n, he, hmono n hn⟩

theorem secStep_trans {c : CompState} {a : List ParamEntry} {c1 : CompState}
    {a1 : List ParamEntry} {c2 : CompState} {a2 : List ParamEntry}
    (h1 : secStep c a c1 a1) (h2 : secStep c1 a1 c2 a2) : secStep c a c2 a2 := by
  refine ⟨h2.1, fun n h => h2.2.1 _ (h1.2.1 _ h), fun e he => ?_⟩
  rcases h2.2.2 e he with h | h
  · rcases h1.2.2 e h with h' | h'
    · exact Or.inl h'
    · exact Or.inr (entryRefInto_mono h2.2.1 h')
  · exact Or.inr h

theorem pushParam_props {comps : CompState} {p : ParamObj} {arr : List ParamEntry}
    {comps' : CompState} {arr' : List ParamEntry}
    (h : pushParam comps p arr = (comps', arr')) (hc : cacheOK comps) :
    secStep comps arr comps' arr' := by
  simp only [pushParam] at h
  cases hl : alookup comps.paramCache (paramSig p) with
  | some n =>
      rw [hl] at h
      injection h with h1 h2
      subst h1
      subst h2
      refine ⟨hc, fun n h => h, fun e he => ?_⟩
      rcases List.mem_append.mp he with h | h
      · exact Or.inl h
      · simp only [List.mem_singleton] at h
        subst h
        exact Or.inr ⟨n, rfl, hc _ (alookup_mem hl)⟩
  | none =>
      rw [hl] at h
      injection h with h1 h2
      subst h1
      subst h2
      refine ⟨?_, ?_, ?_⟩
      · intro q hq
        simp only [List.mem_append, List.mem_singleton] at hq
        rcases hq with hq | hq
        · exact alookup_isSome_upsert _ _ _ _ (hc _ hq)
        · subst hq
          rw [alookup_upsert_self]
          rfl
      · intro n hn
        exact alookup_isSome_upsert _ _ _ _ hn
      · intro e he
        rcases List.mem_append.mp he with h | h
        · exact Or.inl h
        · simp only [List.mem_singleton] at h
          subst h
          refine Or.inr ⟨_, rfl, ?_⟩
          rw [alookup_upsert_self]
          rfl

theorem pushParamsM_props {mk : String → Except String ParamObj} :
    ∀ {names : List String} {comps : CompState} {arr : List ParamEntry}
      {comps' : CompState} {arr' : List ParamEntry},
      pushParamsM mk names comps arr = .ok (comps', arr') →
      cacheOK comps → secStep comps arr comps' arr' := by
  intro names
  induction names with
  | nil =>
      intro comps arr comps' arr' h hc
      simp only [pushParamsM, Except.ok.injEq, Prod.mk.injEq] at h
      obtain ⟨h1, h2⟩ := h
      subst h1
      subst h2
      exact ⟨hc, fun n h => h, fun e he => Or.inl he⟩
  | cons n ns ih =>
      intro comps arr comps' arr' h hc
      simp only [pushParamsM] at h
      cases hmk : mk n with
      | error e =>
          rw [hmk] at h
          simp [exceptBind_error] at h
      | ok p =>
          rw [hmk] at h
          simp only [exceptBind_ok] at h
          rcases hpp : pushParam comps p arr with ⟨comps₁, arr₁⟩
          rw [hpp] at h
          have s1 := pushParam_props hpp hc
          exact secStep_trans s1 (ih h s1.1)

theorem collectSchemas_parameters (comps : CompState) (cs : Option (List (String × Json))) :
    (collectSchemas comps cs).parameters = comps.parameters ∧
    (collectSchemas comps cs).paramCache = comps.paramCache := by
  cases cs <;> simp [collectSchemas]

theorem processSection_props {conv : ConvResult}
    {mk : Json → Option Json → String → Except String ParamObj}
    {comps : CompState} {arr : List ParamEntry}
    {comps' : CompState} {arr' : List ParamEntry}
    (h : processSection conv mk comps arr = .ok (comps', arr')) (hc : cacheOK comps) :
    secStep comps arr comps' arr' := by
  obtain ⟨hcolp, hcolc⟩ := collectSchemas_parameters comps conv.compSchemas
  have hc1 : cacheOK (collectSchemas comps conv.compSchemas) := by
    intro q hq
    rw [hcolc] at hq
    rw [hcolp]
    exact hc q hq
  simp only [processSection] at h
  rcases hrp : resolveProps (collectSchemas comps conv.compSchemas).schemas conv.swagger
    with ⟨props?, req?⟩
  rw [hrp] at h
  cases props? with
  | none =>
      simp only [Except.ok.injEq, Prod.mk.injEq] at h
      obtain ⟨h1, h2⟩ := h
      subst h1
      subst h2
      refine ⟨hc1, fun n hn => ?_, fun e he => Or.inl he⟩
      rw [hcolp]
      exact hn
  | some props =>
      have s := pushParamsM_props h hc1
      exact ⟨s.1, fun n hn => s.2.1 n (by rw [hcolp]; exact hn), s.2.2⟩

theorem sectionOf_props {o : Option ConvResult}
    {mk : Json → Option Json → String → Except String ParamObj}
    {comps : CompState} {arr : List ParamEntry}
    {comps' : CompState} {arr' : List ParamEntry}
    (h : sectionOf o mk comps arr = .ok (comps', arr')) (hc : cacheOK comps) :
    secStep comps arr comps' arr' := by
  cases o with
  | none =>
      simp only [sectionOf, Except.ok.injEq, Prod.mk.injEq] at h
      obtain ⟨h1, h2⟩ := h
      subst h1
      subst h2
      exact ⟨hc, fun n hn => hn, fun e he => Or.inl he⟩
  | some conv => exact processSection_props h hc

theorem processSchema_props {routePath : String} {sch : RouteSchema} {comps : CompState}
    {comps' : CompState} {params' : List ParamEntry} {rb : Option RequestBody}
    (h : processSchema routePath sch comps = .ok (comps', params', rb))
    (hc : cacheOK comps) :
    cacheOK comps' ∧
    (∀ n, (alookup comps.parameters n).isSome = true →
          (alookup comps'.parameters n).isSome = true) ∧
    (∀ e ∈ params', entryRefInto comps'.parameters e) := by
  simp only [processSchema] at h
  cases h1 : sectionOf sch.headers buildHeaderParam comps [] with
  | error e => rw [h1] at h; simp [exceptBind_error] at h
  | ok pair1 =>
      obtain ⟨c1, a1⟩ := pair1
      rw [h1] at h
      simp only [exceptBind_ok] at h
      have s1 := sectionOf_props h1 hc
      cases h2 : sectionOf sch.params
          (fun props _ name => .ok (buildPathParam routePath props name)) c1 a1 with
      | error e => rw [h2] at h; simp [exceptBind_error] at h
      | ok pair2 =>
          obtain ⟨c2, a2⟩ := pair2
          rw [h2] at h
          simp only [exceptBind_ok] at h
          have s2 := sectionOf_props h2 s1.1
          cases h3 : sectionOf sch.query buildQueryParam c2 a2 with
          | error e => rw [h3] at h; simp [exceptBind_error] at h
          | ok pair3 =>
              obtain ⟨c3, a3⟩ := pair3
              rw [h3] at h
              simp only [exceptBind_ok] at h
              have s3 := sectionOf_props h3 s2.1
              have sAll : secStep comps [] c3 a3 :=
                secStep_trans (secStep_trans s1 s2) s3
              have hvalid : ∀ e ∈ a3, entryRefInto c3.parameters e := by
                intro e he
                rcases sAll.2.2 e he with h' | h'
                · simp at h'
                · exact h'
              cases hb : sch.body with
              | none =>
                  rw [hb] at h
                  simp only [exceptPure, Except.ok.injEq, Prod.mk.injEq] at h
                  obtain ⟨hh1, hh2, hh3⟩ := h
                  subst hh1
                  subst hh2
                  exact ⟨sAll.1, sAll.2.1, hvalid⟩
              | some b =>
                  rw [hb] at h
                  simp only [exceptPure, Except.ok.injEq, Prod.mk.injEq] at h
                  obtain ⟨hh1, hh2, hh3⟩ := h
                  obtain ⟨hbp, hbc⟩ := collectSchemas_parameters c3 b.conv.compSchemas
                  subst hh1
                  subst hh2
                  refine ⟨?_, ?_, ?_⟩
                  · intro q hq
                    rw [hbc] at hq
                    rw [hbp]
                    exact sAll.1 q hq
                  · intro n hn
                    rw [hbp]
                    exact sAll.2.1 n hn
                  · intro e he
                    exact entryRefInto_mono (fun n hn => by rw [hbp]; exact hn) (hvalid e he)


theorem paramEntriesOf_upsert_subset (ops : List (String × Operation)) (m : String)
    (op : Operation) :
    ∀ e ∈ paramEntriesOf (upsert ops m op), e ∈ op.parameters ∨ e ∈ paramEntriesOf ops := by
  induction ops with
  | nil =>
      intro e he
      simp [upsert, paramEntriesOf] at he
      exact Or.inl he
  | cons hd tl ih =>
      obtain ⟨k, v⟩ := hd
      intro e he
      by_cases hk : k = m
      · subst hk
        simp only [upsert, reduceIte, paramEntriesOf, List.flatMap_cons] at he
        rcases List.mem_append.mp he with h | h
        · exact Or.inl h
        · refine Or.inr ?_
          simp only [paramEntriesOf, List.flatMap_cons, List.mem_append]
          right
          simpa [paramEntriesOf] using h
      · simp only [upsert, hk, if_false, reduceIte, paramEntriesOf, List.flatMap_cons] at he
        rcases List.mem_append.mp he with h | h
        · exact Or.inr (by simp [paramEntriesOf, List.flatMap_cons, List.mem_append, h])
        · rcases ih e h with h' | h'
          · exact Or.inl h'
          · refine Or.inr ?_
            simp only [paramEntriesOf, List.flatMap_cons, List.mem_append]
            right
            simpa [paramEntriesOf] using h'

theorem pathParamEntries_cons (p : String × List (String × Operation)) (rest) :
    pathParamEntries (p :: rest) = paramEntriesOf p.2 ++ pathParamEntries rest := by
  simp [pathParamEntries]

theorem pathParamEntries_append (a b : List (String × List (String × Operation))) :
    pathParamEntries (a ++ b) = pathParamEntries a ++ pathParamEntries b := by
  simp [pathParamEntries]

theorem pathParamEntries_set_subset (paths) (fp m : String) (op : Operation) :
    ∀ e ∈ pathParamEntries (setPathMethod paths fp m op),
      e ∈ op.parameters ∨ e ∈ pathParamEntries paths := by
  induction paths with
  | nil =>
      intro e he
      simp [setPathMethod, pathParamEntries, paramEntriesOf] at he
      exact Or.inl he
  | cons hd tl ih =>
      obtain ⟨k, ops⟩ := hd
      intro e he
      by_cases hk : k = fp
      · subst hk
        rw [setPathMethod] at he
        simp only [reduceIte] at he
        rw [pathParamEntries_cons] at he
        rcases List.mem_append.mp he with h | h
        · rcases paramEntriesOf_upsert_subset ops m op e h with h' | h'
          · exact Or.inl h'
          · exact Or.inr (by rw [pathParamEntries_cons]; exact List.mem_append.mpr (Or.inl h'))
        · exact Or.inr (by rw [pathParamEntries_cons]; exact List.mem_append.mpr (Or.inr h))
      · rw [setPathMethod] at he
        simp only [hk, if_false, reduceIte] at he
        rw [pathParamEntries_cons] at he
        rcases List.mem_append.mp he with h | h
        · exact Or.inr (by rw [pathParamEntries_cons]; exact List.mem_append.mpr (Or.inl h))
        · rcases ih e h with h' | h'
          · exact Or.inl h'
          · exact Or.inr (by rw [pathParamEntries_cons]; exact List.mem_append.mpr (Or.inr h'))

theorem pathParamEntries_ensure (paths : List (String × List (String × Operation)))
    (fp : String) :
    pathParamEntries (paths ++ [(fp, [])]) = pathParamEntries paths := by
  rw [pathParamEntries_append]
  simp [pathParamEntries, paramEntriesOf]

theorem processRoute_refInv {rootPath : String} {btags : Option (List String)}
    {st : TState} {route : Route} {st' : TState}
    (h : processRoute rootPath btags st route = .ok st') (hinv : refInv st) :
    refInv st' := by
  have hpaths0 : ∀ e ∈ pathParamEntries
      (if (alookup st.paths (fullPathOf rootPath route.path)).isSome then st.paths
       else st.paths ++ [(fullPathOf rootPath route.path, [])]),
      e ∈ pathParamEntries st.paths := by
    intro e he
    by_cases hc : (alookup st.paths (fullPathOf rootPath route.path)).isSome
    · rw [if_pos hc] at he; exact he
    · rw [if_neg hc, pathParamEntries_ensure] at he; exact he
  rcases hsch : route.schema with _ | sch
  · simp only [processRoute, hsch, exceptBind_ok] at h
    cases hE2 : buildResponses (route.metadata.getD RouteMetadata.empty) with
    | error e => rw [hE2] at h; simp [exceptBind_error] at h
    | ok responses =>
        rw [hE2] at h
        simp only [exceptBind_ok, exceptPure, Except.ok.injEq] at h
        subst h
        refine ⟨hinv.1, ?_⟩
        intro e he
        rcases pathParamEntries_set_subset _ _ _ _ e he with h' | h'
        · simp at h'
        · exact hinv.2 e (hpaths0 e h')
  · simp only [processRoute, hsch] at h
    cases hE1 : processSchema route.path sch st.comps with
    | error e => rw [hE1] at h; simp [exceptBind_error] at h
    | ok trip =>
        obtain ⟨comps', params', rb⟩ := trip
        rw [hE1] at h
        simp only [exceptBind_ok] at h
        have hp := processSchema_props hE1 hinv.1
        cases hE2 : buildResponses (route.metadata.getD RouteMetadata.empty) with
        | error e => rw [hE2] at h; simp [exceptBind_error] at h
        | ok responses =>
            rw [hE2] at h
            simp only [exceptBind_ok, exceptPure, Except.ok.injEq] at h
            subst h
            refine ⟨hp.1, ?_⟩
            intro e he
            rcases pathParamEntries_set_subset _ _ _ _ e he with h' | h'
            · exact hp.2.2 e h'
            · exact entryRefInto_mono hp.2.1 (hinv.2 e (hpaths0 e h'))

theorem processRoutes_refInv {rootPath : String} {btags : Option (List String)} :
    ∀ {routes : List Route} {st st' : TState},
      processRoutes rootPath btags routes st = .ok st' → refInv st → refInv st' := by
  intro routes
  induction routes with
  | nil =>
      intro st st' h hinv
      simp [processRoutes] at h
      exact h ▸ hinv
  | cons r rs ih =>
      intro st st' h hinv
      simp only [processRoutes] at h
      cases hr : processRoute rootPath btags st r with
      | error e => rw [hr] at h; simp [exceptBind_error] at h
      | ok st₁ =>
          rw [hr] at h
          simp only [exceptBind_ok] at h
          exact ih h (processRoute_refInv hr hinv)

theorem processBuilders_refInv :
    ∀ {bs : List RouterBuilder} {st st' : TState},
      processBuilders bs st = .ok st' → refInv st → refInv st' := by
  intro bs
  induction bs with
  | nil =>
      intro st st' h hinv
      simp [processBuilders] at h
      exact h ▸ hinv
  | cons b rest ih =>
      intro st st' h hinv
      simp only [processBuilders] at h
      cases hr : processRoutes b.root b.tags b.registeredRoutes st with
      | error e => rw [hr] at h; simp [exceptBind_error] at h
      | ok st₁ =>
          rw [hr] at h
          simp only [exceptBind_ok] at h
          exact ih h (processRoutes_refInv hr hinv)

theorem transformState_refInv {options : SwaggerTransformerOptions} {st : TState}
    (h : transformState options = .ok st) : refInv st :=
  processBuilders_refInv h
    ⟨by intro q hq; simp [initialState] at hq,
     by intro e he; simp [pathParamEntries, initialState] at he⟩

/-- **C10** (confirmed): in every produced document, every element of every
operation's parameters array is a component reference
`{ $ref: "#/components/parameters/<name>" }` whose target name is a key of
`components.parameters` (which is present in the document); no parameter
object is ever inlined. -/
theorem C10_parameters_are_component_refs (options : SwaggerTransformerOptions)
    (doc : OpenApiDoc) (h : swaggerTransformer options = .ok doc) :
    ∀ e ∈ pathParamEntries doc.paths,
      ∃ n c, e = ParamEntry.ref ("#/components/parameters/" ++ n) ∧
        doc.components = some c ∧ (alookup c.parameters n).isSome = true := by
  unfold swaggerTransformer at h
  cases ht : transformState options with
  | error e => rw [ht] at h; simp [Except.map] at h
  | ok st =>
      rw [ht] at h
      simp only [Except.map, Except.ok.injEq] at h
      subst h
      intro e he
      obtain ⟨n, hn, hsome⟩ := (transformState_refInv ht).2 e he
      refine ⟨n, st.comps, hn, ?_, hsome⟩
      have hne : st.comps.parameters.length ≠ 0 := by
        intro hlen
        rw [List.length_eq_zero] at hlen
        rw [hlen] at hsome
        simp [alookup] at hsome
      simp only [buildDoc]
      have : (st.comps.parameters.length != 0) = true := by
        simpa using hne
      rw [this]
      simp

/-- Witness for `C10_parameters_are_component_refs` at a concrete input whose
operation holds a parameter reference: the reference to `header_H` in the
produced document resolves to an existing `components.parameters` key. -/
theorem C10_parameters_are_component_refs_witness :
    ∃ n c, ParamEntry.ref "#/components/parameters/header_H"
        = ParamEntry.ref ("#/components/parameters/" ++ n) ∧
      ((swaggerTransformer
          (c3Options (Json.obj [("type", Json.str "string")]))).toOption.getD
        (buildDoc (c3Options (Json.obj [("type", Json.str "string")]))
          (initialState (c3Options (Json.obj [("type", Json.str "string")]))))).components
        = some c ∧
      (alookup c.parameters n).isSome = true :=
  C10_parameters_are_component_refs (c3Options (Json.obj [("type", Json.str "string")]))
    ((swaggerTransformer
        (c3Options (Json.obj [("type", Json.str "string")]))).toOption.getD
      (buildDoc (c3Options (Json.obj [("type", Json.str "string")]))
        (initialState (c3Options (Json.obj [("type", Json.str "string")]))))) (by rfl)
    (ParamEntry.ref "#/components/parameters/header_H")
    (by rw [show pathParamEntries ((swaggerTransformer
          (c3Options (Json.obj [("type", Json.str "string")]))).toOption.getD
        (buildDoc (c3Options (Json.obj [("type", Json.str "string")]))
          (initialState (c3Options (Json.obj [("type", Json.str "string")]))))).paths
        = [ParamEntry.ref "#/components/parameters/header_H",
           ParamEntry.ref "#/components/parameters/header_H"] from rfl]
        exact List.mem_cons_self _ _)


/-! ## C2 and C3: parameter deduplication -/

/-- **C2** (confirmed): two distinct routes declaring a header parameter with
identical name, identical converted schema and identical description produce
exactly one entry in `components.parameters` (under the derived component
name), and both operations reference it by that same name. -/
theorem C2_header_param_dedup (name cn : String) (S : Json)
    (hcn : canonHeaderName name = .ok cn) :
    (transformState (c2Options name S)).toOption.map (fun st => st.comps.parameters)
        = some [(hdrCompName cn, hdrParamObj cn S)] ∧
    (transformState (c2Options name S)).toOption.map
        (fun st => st.paths.map fun p => (p.1, p.2.map fun q => q.2.parameters))
        = some [("/x", [[ParamEntry.ref ("#/components/parameters/" ++ hdrCompName cn)]]),
                ("/y", [[ParamEntry.ref ("#/components/parameters/" ++ hdrCompName cn)]])] := by
  constructor <;>
  simp [transformState, processBuilders, processRoutes, processRoute, initialState,
    c2Options, mkOptions, headerRoute, processSchema, sectionOf, processSection, headerConv,
    collectSchemas, resolveProps, jsGetField, alookup, jsTruthyOpt, jsTruthy, jsKeys,
    pushParamsM, buildHeaderParam, hcn, requiredIncludes, pushParam, upsert, paramSig,
    exceptBind_ok, exceptBind_error, exceptPure, setPathMethod, Except.toOption,
    hdrParamObj, hdrCompName,
    show fullPathOf "" "/x" = "/x" from rfl,
    show fullPathOf "" "/y" = "/y" from rfl,
    show jsToLower "GET" = "get" from rfl,
    show slashesToUnderscores "/x" = "_x" from rfl,
    show slashesToUnderscores "/y" = "_y" from rfl,
    show findOpId [] "get__x" = "get__x" from rfl,
    show findOpId ["get__x"] "get__y" = "get__y" from rfl,
    show buildResponses RouteMetadata.empty
      = .ok [("200", defaultSuccessResponse none)] from rfl]

/-- Witness for `C2_header_param_dedup` with header name `x-token` and a
string schema. -/
theorem C2_header_param_dedup_witness :
    (transformState (c2Options "x-token" (Json.obj [("type", Json.str "string")]))).toOption.map
        (fun st => st.comps.parameters)
      = some [(hdrCompName "X-Token",
               hdrParamObj "X-Token" (Json.obj [("type", Json.str "string")]))] ∧
    (transformState (c2Options "x-token" (Json.obj [("type", Json.str "string")]))).toOption.map
        (fun st => st.paths.map fun p => (p.1, p.2.map fun q => q.2.parameters))
      = some [("/x", [[ParamEntry.ref ("#/components/parameters/" ++ hdrCompName "X-Token")]]),
              ("/y", [[ParamEntry.ref ("#/components/parameters/" ++ hdrCompName "X-Token")]])] :=
  C2_header_param_dedup "x-token" "X-Token" (Json.obj [("type", Json.str "string")]) (by rfl)

/-- **C3** (counterexample): one route declaring the same content as a header
parameter `h` and a query parameter `h`: the claim predicts separate entries
under `header_H` and `query_h`, but deduplication is by content signature
globally, so the component map holds only `header_H` and no `query_h` key
exists. -/
theorem C3_counterexample :
    (transformState (c3Options (Json.obj [("type", Json.str "string")]))).toOption.map
        (fun st => st.comps.parameters.map Prod.fst) = some ["header_H"] ∧
    (transformState (c3Options (Json.obj [("type", Json.str "string")]))).toOption.map
        (fun st => (alookup st.comps.parameters "query_h").isSome) = some false := by
  constructor <;> decide

/-- **C3** (amended): with identical content under two different derived
names, only one component entry is produced — under the first-seen derived
name — and **both** parameter occurrences (header and query) reference that
single component. -/
theorem C3_amended_global_dedup (S : Json) :
    (transformState (c3Options S)).toOption.map (fun st => st.comps.parameters)
        = some [(hdrCompName "H", hdrParamObj "H" S)] ∧
    (transformState (c3Options S)).toOption.map
        (fun st => st.paths.map fun p => (p.1, p.2.map fun q => q.2.parameters))
        = some [("/x", [[ParamEntry.ref ("#/components/parameters/" ++ hdrCompName "H"),
                         ParamEntry.ref ("#/components/parameters/" ++ hdrCompName "H")]])] := by
  constructor <;>
  simp [transformState, processBuilders, processRoutes, processRoute, initialState,
    c3Options, mkOptions, c3Route, processSchema, sectionOf, processSection, headerConv,
    collectSchemas, resolveProps, jsGetField, alookup, jsTruthyOpt, jsTruthy, jsKeys,
    pushParamsM, buildHeaderParam, buildQueryParam, requiredIncludes, pushParam, upsert,
    paramSig, exceptBind_ok, exceptBind_error, exceptPure, setPathMethod, Except.toOption,
    hdrParamObj, hdrCompName,
    show canonHeaderName "h" = .ok "H" from rfl,
    show fullPathOf "" "/x" = "/x" from rfl,
    show jsToLower "GET" = "get" from rfl,
    show slashesToUnderscores "/x" = "_x" from rfl,
    show findOpId [] "get__x" = "get__x" from rfl,
    show buildResponses RouteMetadata.empty
      = .ok [("200", defaultSuccessResponse none)] from rfl]


/-! ## C5: slash-run collapsing (amended) -/

theorem slashRunsAux_two (l : List Char) :
    slashRunsAux 2 l = slashRunsAux 0 (l.dropWhile (· = '/')) := by
  induction l with
  | nil => simp [slashRunsAux]
  | cons c rest ih =>
      by_cases hc : c = '/'
      · subst hc
        rw [List.dropWhile_cons]
        simp only [decide_True, if_true, reduceIte]
        rw [← ih]
        rfl
      · have hd : List.dropWhile (fun x => decide (x = '/')) (c :: rest) = c :: rest := by
          rw [List.dropWhile_cons]
          simp [hc]
        rw [hd]
        have h1 : slashRunsAux 2 (c :: rest) = slashRunsAux 0 rest := by
          conv_lhs => rw [slashRunsAux.eq_def]
          simp [hc]
        have h2 : slashRunsAux 0 (c :: rest) = slashRunsAux 0 rest := by
          conv_lhs => rw [slashRunsAux.eq_def]
          simp [hc]
        rw [h1, h2]

theorem noDoubleSlash_of_slashRuns_zero :
    ∀ l : List Char, slashRuns l = 0 → noDoubleSlash l = true := by
  intro l
  induction l with
  | nil => intro _; rfl
  | cons x xs ih =>
      intro h
      by_cases hx : x = '/'
      · subst hx
        cases xs with
        | nil => rfl
        | cons y r =>
            by_cases hy : y = '/'
            · subst hy
              exfalso
              have hval : slashRunsAux 0 ('/' :: '/' :: r) = 1 + slashRunsAux 2 r := rfl
              rw [slashRuns, hval] at h
              omega
            · have hnd : noDoubleSlash ('/' :: y :: r) = noDoubleSlash (y :: r) := by
                conv_lhs => rw [noDoubleSlash.eq_def]
                simp [hy]
              rw [hnd]
              apply ih
              have h1 : slashRuns ('/' :: y :: r) = slashRunsAux 0 r := by
                rw [slashRuns]
                conv_lhs => rw [slashRunsAux.eq_def]
                simp only [reduceIte]
                conv_lhs => rw [slashRunsAux.eq_def]
                simp [hy]
              have h2 : slashRuns (y :: r) = slashRunsAux 0 r := by
                rw [slashRuns]
                conv_lhs => rw [slashRunsAux.eq_def]
                simp [hy]
              rw [h2, ← h1]
              exact h
      · have hnd : noDoubleSlash (x :: xs) = noDoubleSlash xs := by
          conv_lhs => rw [noDoubleSlash.eq_def]
          rcases xs with _ | ⟨y, r⟩
          · simp [hx]
          · by_cases hy : y = '/' <;> simp [hx, hy]
        rw [hnd]
        apply ih
        have h1 : slashRuns (x :: xs) = slashRunsAux 0 xs := by
          rw [slashRuns]
          conv_lhs => rw [slashRunsAux.eq_def]
          simp [hx]
        rw [slashRuns, ← h1]
        exact h

theorem dropWhile_slash_head :
    ∀ l : List Char, ∀ y r, l.dropWhile (· = '/') = y :: r → y ≠ '/' := by
  intro l
  induction l with
  | nil => intro y r h; simp at h
  | cons c rest ih =>
      intro y r h
      rw [List.dropWhile_cons] at h
      by_cases hc : c = '/'
      · simp only [hc, decide_True, if_true, reduceIte] at h
        exact ih y r h
      · simp only [hc, decide_False, Bool.false_eq_true, if_false, reduceIte] at h
        obtain ⟨h1, _⟩ := List.cons.injEq .. ▸ h
        exact h1 ▸ hc

theorem collapse_cons_safe (x : Char) (xs : List Char)
    (hsafe : x ≠ '/' ∨ xs.head? ≠ some '/') :
    collapseFirstSlashRun (x :: xs) = x :: collapseFirstSlashRun xs := by
  conv_lhs => rw [collapseFirstSlashRun.eq_def]
  rcases xs with _ | ⟨z, r⟩
  · by_cases hx : x = '/' <;> simp [hx, collapseFirstSlashRun]
  · by_cases hx : x = '/'
    · subst hx
      rcases hsafe with h | h
      · exact absurd rfl h
      · by_cases hz : z = '/'
        · subst hz; simp at h
        · simp [hz]
    · simp [hx]

theorem noDoubleSlash_cons_safe (x : Char) (xs : List Char)
    (hsafe : x ≠ '/' ∨ xs.head? ≠ some '/') :
    noDoubleSlash (x :: xs) = noDoubleSlash xs := by
  conv_lhs => rw [noDoubleSlash.eq_def]
  rcases xs with _ | ⟨z, r⟩
  · simp [noDoubleSlash]
  · by_cases hx : x = '/'
    · subst hx
      rcases hsafe with h | h
      · exact absurd rfl h
      · by_cases hz : z = '/'
        · subst hz; simp at h
        · simp [hz]
    · simp [hx]

theorem slashRuns_cons_safe (x : Char) (xs : List Char)
    (hsafe : x ≠ '/' ∨ xs.head? ≠ some '/') :
    slashRuns (x :: xs) = slashRuns xs := by
  rcases xs with _ | ⟨z, r⟩
  · by_cases hx : x = '/' <;> simp [slashRuns, slashRunsAux, hx]
  · by_cases hx : x = '/'
    · subst hx
      rcases hsafe with h | h
      · exact absurd rfl h
      · by_cases hz : z = '/'
        · subst hz; simp at h
        · rw [slashRuns, slashRuns]
          have h1 : slashRunsAux 0 ('/' :: z :: r) = slashRunsAux 0 r := by
            conv_lhs => rw [slashRunsAux.eq_def]
            simp only [reduceIte]
            conv_lhs => rw [slashRunsAux.eq_def]
            simp [hz]
          have h2 : slashRunsAux 0 (z :: r) = slashRunsAux 0 r := by
            conv_lhs => rw [slashRunsAux.eq_def]
            simp [hz]
          rw [h1, h2]
    · rw [slashRuns, slashRuns]
      conv_lhs => rw [slashRunsAux.eq_def]
      simp [hx]

theorem collapse_head? (l : List Char) :
    (collapseFirstSlashRun l).head? = l.head? := by
  rcases l with _ | ⟨x, xs⟩
  · rfl
  · rcases xs with _ | ⟨z, r⟩
    · by_cases hx : x = '/' <;> simp [collapseFirstSlashRun, hx]
    · by_cases hx : x = '/'
      · subst hx
        by_cases hz : z = '/'
        · subst hz; rfl
        · have : collapseFirstSlashRun ('/' :: z :: r)
              = '/' :: collapseFirstSlashRun (z :: r) :=
            collapse_cons_safe _ _ (Or.inr (by simp [hz]))
          rw [this]
          rfl
      · have : collapseFirstSlashRun (x :: z :: r)
            = x :: collapseFirstSlashRun (z :: r) :=
          collapse_cons_safe _ _ (Or.inl hx)
        rw [this]
        rfl

theorem noDoubleSlash_collapse :
    ∀ l : List Char, slashRuns l ≤ 1 → noDoubleSlash (collapseFirstSlashRun l) = true := by
  intro l
  induction l with
  | nil => intro _; rfl
  | cons x xs ih =>
      intro h
      by_cases hdouble : x = '/' ∧ xs.head? = some '/'
      · obtain ⟨hx, hhead⟩ := hdouble
        subst hx
        rcases xs with _ | ⟨z, r⟩
        · simp at hhead
        · simp only [List.head?_cons, Option.some.injEq] at hhead
          subst hhead
          have hcol : collapseFirstSlashRun ('/' :: '/' :: r)
              = '/' :: r.dropWhile (· = '/') := rfl
          rw [hcol]
          have hz : slashRunsAux 0 (r.dropWhile (· = '/')) = 0 := by
            have hval : slashRunsAux 0 ('/' :: '/' :: r) = 1 + slashRunsAux 2 r := rfl
            rw [slashRuns, hval, slashRunsAux_two] at h
            omega
          have hrest : noDoubleSlash (r.dropWhile (· = '/')) = true :=
            noDoubleSlash_of_slashRuns_zero _ hz
          rcases hd : r.dropWhile (· = '/') with _ | ⟨y', r'⟩
          · rfl
          · have hy' : y' ≠ '/' := dropWhile_slash_head r y' r' hd
            rw [hd] at hrest
            rw [noDoubleSlash_cons_safe '/' (y' :: r') (Or.inr (by simp [hy']))]
            exact hrest
      · have hsafe : x ≠ '/' ∨ xs.head? ≠ some '/' := by
          by_cases hx : x = '/'
          · right; intro hc; exact hdouble ⟨hx, hc⟩
          · left; exact hx
        rw [collapse_cons_safe x xs hsafe]
        have hsafe2 : x ≠ '/' ∨ (collapseFirstSlashRun xs).head? ≠ some '/' := by
          rcases hsafe with h' | h'
          · left; exact h'
          · right; rw [collapse_head?]; exact h'
        rw [noDoubleSlash_cons_safe x _ hsafe2]
        apply ih
        rw [← slashRuns_cons_safe x xs hsafe]
        exact h

theorem noDoubleSlash_singleton (x : Char) : noDoubleSlash [x] = true := by
  rw [noDoubleSlash_cons_safe x [] (Or.inr (by simp))]
  rfl

theorem noDoubleSlash_tail {x : Char} {xs : List Char}
    (h : noDoubleSlash (x :: xs) = true) : noDoubleSlash xs = true := by
  rcases xs with _ | ⟨y, r⟩
  · rfl
  · by_cases hx : x = '/'
    · subst hx
      by_cases hy : y = '/'
      · subst hy
        exact absurd h (by intro hc; exact Bool.false_ne_true hc)
      · rw [noDoubleSlash_cons_safe '/' (y :: r) (Or.inr (by simp [hy]))] at h
        exact h
    · rw [noDoubleSlash_cons_safe x (y :: r) (Or.inl hx)] at h
      exact h

theorem noDoubleSlash_dropLast :
    ∀ l : List Char, noDoubleSlash l = true → noDoubleSlash l.dropLast = true := by
  intro l
  induction l with
  | nil => intro _; rfl
  | cons x xs ih =>
      intro h
      rcases xs with _ | ⟨y, r⟩
      · show noDoubleSlash [] = true
        rfl
      · have hdl : (x :: y :: r).dropLast = x :: (y :: r).dropLast := rfl
        rw [hdl]
        have hxy : ¬(x = '/' ∧ y = '/') := by
          rintro ⟨hx, hy⟩
          subst hx
          subst hy
          exact absurd h (by intro hc; exact Bool.false_ne_true hc)
        rcases r with _ | ⟨z, r2⟩
        · simp [List.dropLast, noDoubleSlash_singleton]
        · have hdl2 : (y :: z :: r2).dropLast = y :: (z :: r2).dropLast := rfl
          have hsafe : x ≠ '/' ∨ ((y :: z :: r2).dropLast).head? ≠ some '/' := by
            by_cases hx : x = '/'
            · right
              rw [hdl2]
              simp only [List.head?_cons]
              intro hy
              exact hxy ⟨hx, Option.some.inj hy⟩
            · left; exact hx
          rw [noDoubleSlash_cons_safe x _ hsafe]
          exact ih (noDoubleSlash_tail h)

theorem dropLast_no_trailing :
    ∀ l : List Char, noDoubleSlash l = true → l.getLast? = some '/' →
      1 < l.length → l.dropLast.getLast? ≠ some '/' := by
  intro l
  induction l with
  | nil => intro _ _ hlen; simp at hlen
  | cons x xs ih =>
      intro h hlast hlen
      rcases xs with _ | ⟨y, r⟩
      · simp at hlen
      · rcases r with _ | ⟨z, r2⟩
        · have hy : y = '/' := by simpa using hlast
          subst hy
          have hx : x ≠ '/' := by
            intro hx
            subst hx
            exact absurd h (by intro hc; exact Bool.false_ne_true hc)
          simp [List.dropLast, hx]
        · have hlast2 : (y :: z :: r2).getLast? = some '/' := by
            simpa using hlast
          have hrec := ih (noDoubleSlash_tail h) hlast2 (by simp)
          have hdl : (x :: y :: z :: r2).dropLast = x :: (y :: z :: r2).dropLast := rfl
          rw [hdl]
          have hne : (y :: z :: r2).dropLast ≠ [] := by
            simp [List.dropLast]
          rcases hd : (y :: z :: r2).dropLast with _ | ⟨w, ws⟩
          · exact absurd hd hne
          · rw [hd] at hrec
            simpa using hrec

/-- **C5** (amended): only the *first* run of consecutive slashes is
collapsed and at most one trailing slash is stripped; consequently, whenever
the concatenated (template-rewritten) path contains at most one run of
consecutive slashes, the normalized key contains no `//` and, if longer than
one character, does not end with a slash (so `/` alone is preserved). -/
theorem C5_amended (root path : String)
    (h : slashRuns (paramRewrite (root ++ path).data) ≤ 1) :
    noDoubleSlash (fullPathOf root path).data = true ∧
    ((fullPathOf root path).length > 1 → endsWithSlash (fullPathOf root path) = false) := by
  have hnd : noDoubleSlash (collapseFirstSlashRun (paramRewrite (root ++ path).data)) = true :=
    noDoubleSlash_collapse _ h
  unfold fullPathOf
  dsimp only
  split
  case isTrue hcc =>
      simp only [Bool.and_eq_true, decide_eq_true_eq] at hcc
      obtain ⟨hends, hlen⟩ := hcc
      constructor
      · exact noDoubleSlash_dropLast _ hnd
      · intro _
        unfold endsWithSlash at hends ⊢
        simp only [decide_eq_true_eq] at hends
        have := dropLast_no_trailing _ hnd hends (by simpa using hlen)
        simpa using this
  case isFalse hcc =>
      constructor
      · exact hnd
      · intro hlen
        simp only [Bool.and_eq_true, decide_eq_true_eq, not_and] at hcc
        rcases hends : endsWithSlash
            (⟨collapseFirstSlashRun (paramRewrite (root ++ path).data)⟩ : String) with _ | _
        · rfl
        · exact absurd (by simpa using hlen) (by simpa using hcc hends)

/-- Witness for `C5_amended` at root `/a` and path `//b/` (one slash run and
a trailing slash): the result `/a/b` is clean. -/
theorem C5_amended_witness :
    slashRuns (paramRewrite ("/a" ++ "//b/").data) ≤ 1 ∧
    (noDoubleSlash (fullPathOf "/a" "//b/").data = true ∧
     ((fullPathOf "/a" "//b/").length > 1 → endsWithSlash (fullPathOf "/a" "//b/") = false)) :=
  ⟨by decide, C5_amended "/a" "//b/" (by decide)⟩

end Swagger
